import Mathlib

/-!
Verification development for the incremental knowledge-graph construction
engine (graph manager, extraction-response validation, consolidation engine
and processing pipeline of the Substack knowledge-graph generator).

The JavaScript/TypeScript source is shallowly embedded: JS `Map`s become
association lists with JS-`Map` get/set/delete semantics, JS arrays become
`List`s, thrown exceptions become `Except`/`Option`, and the two impure
inputs of the code (`new Date()` timestamps and the external model call)
become explicit parameters.  Machine strings are Lean `String`s; character
level operations are implemented on `List Char` (`String.data`) so that
they can be reasoned about by list induction.  JS `toLowerCase` is modelled
on the ASCII range, which is the only range the surrounding regexes
distinguish.
-/

/-! ## Identifier normalizer (src/utils.ts, `generateId`) -/

/-- A character matched by the class `[a-z0-9]` of the source regex. -/
def isAlnum (c : Char) : Bool :=
  ('a' ≤ c && c ≤ 'z') || ('0' ≤ c && c ≤ '9')

/-- `.replace(/[^a-z0-9]+/g, '-')`: every maximal run of characters outside
`[a-z0-9]` is replaced by a single hyphen (the hyphen is emitted at the last
character of the run). -/
def collapseRuns : List Char → List Char
  | [] => []
  | c :: cs =>
    if isAlnum c then c :: collapseRuns cs
    else
      match cs with
      | [] => ['-']
      | d :: _ => if isAlnum d then '-' :: collapseRuns cs else collapseRuns cs

/-- The `^-` alternative of `.replace(/^-|-$/g, '')`: the regex deletes at
most one hyphen anchored at the start of the string. -/
def dropOneLeadingHyphen : List Char → List Char
  | '-' :: rest => rest
  | l => l

/-- The `-$` alternative of `.replace(/^-|-$/g, '')`: at most one hyphen
anchored at the end of the string is deleted. -/
def dropOneTrailingHyphen (l : List Char) : List Char :=
  (dropOneLeadingHyphen l.reverse).reverse

/-- `generateId` from src/utils.ts: lower-case, collapse non-alphanumeric
runs to single hyphens, strip one leading and one trailing hyphen
(`/^-|-$/g`), truncate with `.slice(0, 100)`. -/
def generateIdL (l : List Char) : List Char :=
  (dropOneTrailingHyphen (dropOneLeadingHyphen (collapseRuns (l.map Char.toLower)))).take 100

/-- `generateId` on `String`s. -/
def generateId (s : String) : String :=
  ⟨generateIdL s.data⟩

/-- Modelled from the spec's words for §4.1 (the claim's description of the
normalizer): "trim leading/trailing hyphens" removes every leading and every
trailing hyphen, not just one. -/
def dropLeadingHyphens (l : List Char) : List Char :=
  l.dropWhile (· = '-')

/-- Spec-side trailing trim: all trailing hyphens removed. -/
def dropTrailingHyphens (l : List Char) : List Char :=
  (l.reverse.dropWhile (· = '-')).reverse

/-- The normalizer exactly as the spec describes it: lower-case, collapse
runs of non-alphanumerics to one hyphen, remove leading and trailing
hyphens, truncate to 100 characters. -/
def generateIdSpecL (l : List Char) : List Char :=
  (dropTrailingHyphens (dropLeadingHyphens (collapseRuns (l.map Char.toLower)))).take 100

/-- Spec-side normalizer on `String`s. -/
def generateIdSpec (s : String) : String :=
  ⟨generateIdSpecL s.data⟩

/-- No two adjacent hyphens occur in the list. -/
def NoAdjHyphens (l : List Char) : Prop :=
  l.Chain' (fun a b => ¬(a = '-' ∧ b = '-'))

theorem isAlnum_ne_hyphen {c : Char} (h : isAlnum c = true) : c ≠ '-' := by
  intro hc
  subst hc
  exact absurd h (by decide)

theorem collapseRuns_cons_alnum (c : Char) (cs : List Char) (h : isAlnum c = true) :
    collapseRuns (c :: cs) = c :: collapseRuns cs := by
  simp [collapseRuns, h]

theorem collapseRuns_head_ne_hyphen :
    ∀ l : List Char, ∀ b ∈ (collapseRuns l).head?,
      (∀ d ∈ l.head?, isAlnum d = true) → b ≠ '-'
  | [], b, hb, _ => by simp [collapseRuns] at hb
  | c :: cs, b, hb, h => by
    have hc : isAlnum c = true := h c (by simp)
    rw [collapseRuns_cons_alnum c cs hc] at hb
    simp at hb
    subst hb
    exact isAlnum_ne_hyphen hc

theorem collapseRuns_noAdj : ∀ l : List Char, NoAdjHyphens (collapseRuns l)
  | [] => by simp [collapseRuns, NoAdjHyphens]
  | c :: cs => by
    by_cases hc : isAlnum c = true
    · rw [collapseRuns_cons_alnum c cs hc]
      refine List.chain'_cons'.mpr ⟨?_, collapseRuns_noAdj cs⟩
      intro b _ hb
      exact isAlnum_ne_hyphen hc hb.1
    · have hc' : isAlnum c = false := by simpa using hc
      match cs with
      | [] => simp [collapseRuns, hc', NoAdjHyphens]
      | d :: rest =>
        by_cases hd : isAlnum d = true
        · have : collapseRuns (c :: d :: rest) = '-' :: collapseRuns (d :: rest) := by
            simp [collapseRuns, hc', hd]
          rw [NoAdjHyphens, this]
          refine List.chain'_cons'.mpr ⟨?_, collapseRuns_noAdj (d :: rest)⟩
          intro b hb hcontra
          have hb' : b ≠ '-' :=
            collapseRuns_head_ne_hyphen (d :: rest) b hb (by simpa using hd)
          exact hb' hcontra.2
        · have hd' : isAlnum d = false := by simpa using hd
          have : collapseRuns (c :: d :: rest) = collapseRuns (d :: rest) := by
            simp [collapseRuns, hc', hd']
          rw [NoAdjHyphens, this]
          exact collapseRuns_noAdj (d :: rest)

theorem dropOneLeadingHyphen_eq_dropWhile {l : List Char} (h : NoAdjHyphens l) :
    dropOneLeadingHyphen l = dropLeadingHyphens l := by
  match l with
  | [] => rfl
  | c :: rest =>
    by_cases hc : c = '-'
    · subst hc
      show rest = dropLeadingHyphens ('-' :: rest)
      match rest with
      | [] => rfl
      | d :: rest' =>
        have hd : d ≠ '-' := by
          have := (List.chain'_cons.mp h).1
          intro hcd
          exact this ⟨rfl, hcd⟩
        simp [dropLeadingHyphens, List.dropWhile, hd]
    · have h1 : dropOneLeadingHyphen (c :: rest) = c :: rest := by
        cases c with
        | mk v h' =>
          simp only [dropOneLeadingHyphen]
          split
          · rename_i heq
            exact absurd (by injection heq) (by intro hh; exact hc (by simp_all))
          · rfl
      rw [h1]
      simp [dropLeadingHyphens, List.dropWhile, hc]

theorem noAdj_reverse {l : List Char} (h : NoAdjHyphens l) : NoAdjHyphens l.reverse := by
  rw [NoAdjHyphens, List.chain'_reverse]
  have : (fun a b : Char => ¬(a = '-' ∧ b = '-')) = flip (fun a b : Char => ¬(a = '-' ∧ b = '-')) := by
    funext a b
    simp [flip, and_comm]
  rw [← this]
  exact h

theorem noAdj_dropOneLeading {l : List Char} (h : NoAdjHyphens l) :
    NoAdjHyphens (dropOneLeadingHyphen l) := by
  match l with
  | [] => exact h
  | c :: rest =>
    by_cases hc : c = '-'
    · subst hc
      exact List.Chain'.tail h
    · have h1 : dropOneLeadingHyphen (c :: rest) = c :: rest := by
        simp only [dropOneLeadingHyphen]
        split
        · rename_i heq
          exact absurd (by injection heq) (by intro hh; exact hc (by simp_all))
        · rfl
      rw [h1]
      exact h

theorem dropOneTrailingHyphen_eq_dropWhile {l : List Char} (h : NoAdjHyphens l) :
    dropOneTrailingHyphen l = dropTrailingHyphens l := by
  rw [dropOneTrailingHyphen, dropTrailingHyphens,
    dropOneLeadingHyphen_eq_dropWhile (noAdj_reverse h)]
  rfl

/-- Claim C8: the identifier normalizer is the deterministic, pure, total
function described by the spec: lower-case, collapse each maximal run of
non-alphanumeric characters to a single hyphen, remove leading and trailing
hyphens, truncate to 100 characters.  The source's single-hyphen trim
(`/^-|-$/g`) coincides with the spec's full trim because the collapsed
string never contains two adjacent hyphens. -/
theorem generateId_eq_spec (s : String) : generateId s = generateIdSpec s := by
  show (⟨generateIdL s.data⟩ : String) = ⟨generateIdSpecL s.data⟩
  have h : generateIdL s.data = generateIdSpecL s.data := by
    rw [generateIdL, generateIdSpecL]
    have h0 : NoAdjHyphens (collapseRuns (s.data.map Char.toLower)) :=
      collapseRuns_noAdj _
    rw [dropOneLeadingHyphen_eq_dropWhile h0]
    have h1 : NoAdjHyphens (dropLeadingHyphens (collapseRuns (s.data.map Char.toLower))) := by
      rw [← dropOneLeadingHyphen_eq_dropWhile h0]
      exact noAdj_dropOneLeading h0
    rw [dropOneTrailingHyphen_eq_dropWhile h1]
  rw [h]

/-! ## Data model (src/types.ts) -/

/-- `Entity.type` values (validated by the extraction parser). -/
inductive EntityType where
  | person | organization | place | work | event | other
deriving Repr, DecidableEq

/-- Significance tiers (validated by the extraction parser). -/
inductive Significance where
  | major | moderate | minor
deriving Repr, DecidableEq

/-- One document (a Substack post). -/
structure Post where
  id : String
  title : String
  date : String
  content : String
  wordCount : Nat
  filename : String
  links : List String
deriving Repr, DecidableEq

/-- One occurrence of an entity/concept in a post. -/
structure Occurrence where
  postTitle : String
  postDate : String
  context : String
  significance : String
deriving Repr, DecidableEq

/-- One evolution note of a concept. -/
structure ConceptEvolution where
  postTitle : String
  postDate : String
  note : String
deriving Repr, DecidableEq

structure Entity where
  id : String
  name : String
  type : EntityType
  description : String
  aliases : List String
  occurrences : List Occurrence
  relatedEntities : List String
  relatedConcepts : List String
  firstSeen : String
  significance : Significance
deriving Repr, DecidableEq

/-- A concept record.  Named `KGConcept` because Mathlib already declares
`Concept` (concept lattices); in the source this is `Concept`. -/
structure KGConcept where
  id : String
  name : String
  domains : List String
  description : String
  alternateTerms : List String
  occurrences : List Occurrence
  relatedConcepts : List String
  relatedEntities : List String
  evolution : List ConceptEvolution
  firstSeen : String
  significance : Significance
deriving Repr, DecidableEq

/-- A relationship record.  `type` is a `String` at runtime: the TS union
type is asserted with an unchecked cast (`extracted.type as
Relationship['type']`) and the parser only defaults it (`r.type ||
'related'`), so arbitrary strings can occur. -/
structure Relationship where
  id : String
  sourceId : String
  targetId : String
  type : String
  description : String
  evidence : List String
deriving Repr, DecidableEq

structure GraphMetadata where
  totalPostsProcessed : Nat
  dateRangeEarliest : String
  dateRangeLatest : String
  lastUpdated : String
  authorName : Option String
deriving Repr, DecidableEq

/-- A JS `Map<string, α>` modelled as its ordered entry list. -/
abbrev JsMap (α : Type) : Type := List (String × α)

/-- `Map.prototype.get`: the value of the (unique) entry for the key. -/
def jmGet {α : Type} (m : JsMap α) (k : String) : Option α :=
  (m.find? (fun kv => kv.1 = k)).map Prod.snd

/-- `Map.prototype.set`: overwrite the value in place if the key is present,
otherwise append the new entry at the end. -/
def jmSet {α : Type} (m : JsMap α) (k : String) (v : α) : JsMap α :=
  match m with
  | [] => [(k, v)]
  | kv :: rest => if kv.1 = k then (k, v) :: rest else kv :: jmSet rest k v

/-- `Map.prototype.delete`: remove the entry for the key. -/
def jmDelete {α : Type} (m : JsMap α) (k : String) : JsMap α :=
  m.filter (fun kv => kv.1 ≠ k)

structure KnowledgeGraph where
  entities : JsMap Entity
  concepts : JsMap KGConcept
  relationships : List Relationship
  metadata : GraphMetadata
deriving Repr, DecidableEq

/-- Extraction-result entity candidate (API response type). -/
structure ExtractedEntity where
  name : String
  isNew : Bool
  type : EntityType
  description : String
  aliases : List String
  contextInThisPost : String
  significanceInThisPost : String
  significance : Significance
deriving Repr, DecidableEq

/-- Extraction-result concept candidate.  The parser always materialises
`evolutionNote` (`c.evolutionNote || ''`), so `""` stands for "absent";
`applyExtraction` tests its JS truthiness, i.e. `≠ ""`. -/
structure ExtractedConcept where
  name : String
  isNew : Bool
  domains : List String
  description : String
  alternateTerms : List String
  contextInThisPost : String
  evolutionNote : String
deriving Repr, DecidableEq

structure ExtractedRelationship where
  source : String
  target : String
  type : String
  description : String
  evidenceQuote : String
deriving Repr, DecidableEq

structure ExtractionResult where
  entities : List ExtractedEntity
  concepts : List ExtractedConcept
  relationships : List ExtractedRelationship
deriving Repr, DecidableEq

structure MergeInstruction where
  keep : String
  merge : String
  reason : String
deriving Repr, DecidableEq

structure SignificanceUpdate where
  id : String
  newSignificance : Significance
deriving Repr, DecidableEq

structure DescriptionUpdate where
  id : String
  newDescription : String
deriving Repr, DecidableEq

structure IntegrationResult where
  merges : List MergeInstruction
  newRelationships : List ExtractedRelationship
  updatedSignificance : List SignificanceUpdate
  descriptionUpdates : List DescriptionUpdate
deriving Repr, DecidableEq

/-! ## Graph store (src/graphManager.ts): `applyExtraction` -/

/-- Accumulator pass of `[...new Set(arrays.flat())]`: keep the first
occurrence of each element. -/
def jsSetDedupAux {α : Type} [DecidableEq α] : List α → List α → List α
  | _, [] => []
  | seen, a :: l =>
    if a ∈ seen then jsSetDedupAux seen l else a :: jsSetDedupAux (a :: seen) l

/-- `mergeArrays(...arrays)` (src/graphManager.ts): flatten, then drop
duplicates keeping first occurrences (JS `Set` iteration order).  The
variadic arguments are passed as a list of lists. -/
def mergeArrays {α : Type} [DecidableEq α] (arrays : List (List α)) : List α :=
  jsSetDedupAux [] arrays.flatten

/-- `arr.push(x)` guarded by `!arr.includes(x)`, the idiom used for alias,
related-id and evidence accumulation. -/
def pushIfAbsent {α : Type} [DecidableEq α] (l : List α) (x : α) : List α :=
  if x ∈ l then l else l ++ [x]

/-- `createEmptyGraph()`, with `new Date().toISOString()` passed in as
`now`. -/
def createEmptyGraph (now : String) : KnowledgeGraph :=
  { entities := []
    concepts := []
    relationships := []
    metadata :=
      { totalPostsProcessed := 0
        dateRangeEarliest := ""
        dateRangeLatest := ""
        lastUpdated := now
        authorName := none } }

/-- The `// Update significance based on occurrence count` snippet that
`applyExtraction` runs after updating an existing entity. -/
def promoteSignificanceE (e : Entity) : Entity :=
  if 5 ≤ e.occurrences.length then { e with significance := Significance.major }
  else if 2 ≤ e.occurrences.length then { e with significance := Significance.moderate }
  else e

/-- The same snippet for an updated concept. -/
def promoteSignificanceC (c : KGConcept) : KGConcept :=
  if 5 ≤ c.occurrences.length then { c with significance := Significance.major }
  else if 2 ≤ c.occurrences.length then { c with significance := Significance.moderate }
  else c

/-- One iteration of the `for (const extracted of extraction.entities)` loop
of `applyExtraction`. -/
def applyEntityCandidate (post : Post) (entities : JsMap Entity)
    (extracted : ExtractedEntity) : JsMap Entity :=
  let id := generateId extracted.name
  match jmGet entities id with
  | some existing =>
    let occ := existing.occurrences ++
      [{ postTitle := post.title
         postDate := post.date
         context := extracted.contextInThisPost
         significance := extracted.significanceInThisPost }]
    let updated : Entity :=
      { existing with
        occurrences := occ
        aliases := mergeArrays [existing.aliases, extracted.aliases]
        description :=
          if existing.description.length < extracted.description.length
          then extracted.description else existing.description }
    jmSet entities id (promoteSignificanceE updated)
  | none =>
    jmSet entities id
      { id := id
        name := extracted.name
        type := extracted.type
        description := extracted.description
        aliases := extracted.aliases
        occurrences :=
          [{ postTitle := post.title
             postDate := post.date
             context := extracted.contextInThisPost
             significance := extracted.significanceInThisPost }]
        relatedEntities := []
        relatedConcepts := []
        firstSeen := post.title
        significance := extracted.significance }

/-- One iteration of the `for (const extracted of extraction.concepts)` loop
of `applyExtraction`.  A concept occurrence is recorded with `significance:
''`; a new concept is created with significance `'moderate'`. -/
def applyConceptCandidate (post : Post) (concepts : JsMap KGConcept)
    (extracted : ExtractedConcept) : JsMap KGConcept :=
  let id := generateId extracted.name
  match jmGet concepts id with
  | some existing =>
    let occ := existing.occurrences ++
      [{ postTitle := post.title
         postDate := post.date
         context := extracted.contextInThisPost
         significance := "" }]
    let updated : KGConcept :=
      { existing with
        occurrences := occ
        domains := mergeArrays [existing.domains, extracted.domains]
        alternateTerms := mergeArrays [existing.alternateTerms, extracted.alternateTerms]
        evolution :=
          if extracted.evolutionNote ≠ "" then
            existing.evolution ++
              [{ postTitle := post.title
                 postDate := post.date
                 note := extracted.evolutionNote }]
          else existing.evolution
        description :=
          if existing.description.length < extracted.description.length
          then extracted.description else existing.description }
    jmSet concepts id (promoteSignificanceC updated)
  | none =>
    jmSet concepts id
      { id := id
        name := extracted.name
        domains := extracted.domains
        description := extracted.description
        alternateTerms := extracted.alternateTerms
        occurrences :=
          [{ postTitle := post.title
             postDate := post.date
             context := extracted.contextInThisPost
             significance := "" }]
        relatedConcepts := []
        relatedEntities := []
        evolution :=
          if extracted.evolutionNote ≠ "" then
            [{ postTitle := post.title, postDate := post.date, note := extracted.evolutionNote }]
          else []
        firstSeen := post.title
        significance := Significance.moderate }

/-- Does a stored relationship have this `(sourceId, targetId, type)`
triple?  (The lookup `updatedGraph.relationships.find(...)`.) -/
def relMatches (sourceId targetId ty : String) (r : Relationship) : Bool :=
  r.sourceId = sourceId && r.targetId = targetId && r.type = ty

/-- Mutate the relationship object `find` located (the first match): append
`post.title` to its evidence unless already recorded. -/
def updateFirstRel (rels : List Relationship) (sourceId targetId ty title : String) :
    List Relationship :=
  match rels with
  | [] => []
  | r :: rest =>
    if relMatches sourceId targetId ty r then
      { r with evidence := pushIfAbsent r.evidence title } :: rest
    else
      r :: updateFirstRel rest sourceId targetId ty title

/-- `sourceEntity.relatedEntities.push(x)` guarded by `includes`, expressed
as a map update on the entry holding the (shared, mutated-in-place)
object. -/
def entPushRelatedEntity (m : JsMap Entity) (id x : String) : JsMap Entity :=
  match jmGet m id with
  | some e => jmSet m id { e with relatedEntities := pushIfAbsent e.relatedEntities x }
  | none => m

def entPushRelatedConcept (m : JsMap Entity) (id x : String) : JsMap Entity :=
  match jmGet m id with
  | some e => jmSet m id { e with relatedConcepts := pushIfAbsent e.relatedConcepts x }
  | none => m

def conPushRelatedConcept (m : JsMap KGConcept) (id x : String) : JsMap KGConcept :=
  match jmGet m id with
  | some c => jmSet m id { c with relatedConcepts := pushIfAbsent c.relatedConcepts x }
  | none => m

def conPushRelatedEntity (m : JsMap KGConcept) (id x : String) : JsMap KGConcept :=
  match jmGet m id with
  | some c => jmSet m id { c with relatedEntities := pushIfAbsent c.relatedEntities x }
  | none => m

/-- One iteration of the `for (const extracted of extraction.relationships)`
loop of `applyExtraction`, threading the relationship list and both maps.
The four `if` blocks re-read the maps between the two pushes because in the
source the two pushes go to (possibly the same) shared objects. -/
def applyRelationshipCandidate (post : Post)
    (st : List Relationship × JsMap Entity × JsMap KGConcept)
    (extracted : ExtractedRelationship) :
    List Relationship × JsMap Entity × JsMap KGConcept :=
  let (rels, entities, concepts) := st
  let sourceId := generateId extracted.source
  let targetId := generateId extracted.target
  let rels :=
    if rels.any (relMatches sourceId targetId extracted.type) then
      updateFirstRel rels sourceId targetId extracted.type post.title
    else
      rels ++
        [{ id := sourceId ++ "-" ++ extracted.type ++ "-" ++ targetId
           sourceId := sourceId
           targetId := targetId
           type := extracted.type
           description := extracted.description
           evidence := [post.title] }]
  let sourceIsEntity := (jmGet entities sourceId).isSome
  let sourceIsConcept := (jmGet concepts sourceId).isSome
  let targetIsEntity := (jmGet entities targetId).isSome
  let targetIsConcept := (jmGet concepts targetId).isSome
  let entities :=
    if sourceIsEntity && targetIsEntity then
      entPushRelatedEntity (entPushRelatedEntity entities sourceId targetId) targetId sourceId
    else entities
  let concepts :=
    if sourceIsConcept && targetIsConcept then
      conPushRelatedConcept (conPushRelatedConcept concepts sourceId targetId) targetId sourceId
    else concepts
  let (entities, concepts) :=
    if sourceIsEntity && targetIsConcept then
      (entPushRelatedConcept entities sourceId targetId,
       conPushRelatedEntity concepts targetId sourceId)
    else (entities, concepts)
  let (concepts, entities) :=
    if sourceIsConcept && targetIsEntity then
      (conPushRelatedEntity concepts sourceId targetId,
       entPushRelatedConcept entities targetId sourceId)
    else (concepts, entities)
  (rels, entities, concepts)

/-- `applyExtraction(graph, extraction, post)` (src/graphManager.ts), with
`new Date().toISOString()` passed in as `now`.  This computes the graph
value returned to the caller; the sharing of nested objects with the
pre-call graph is modelled separately by `applyExtractionCallerView`. -/
def applyExtraction (graph : KnowledgeGraph) (extraction : ExtractionResult)
    (post : Post) (now : String) : KnowledgeGraph :=
  let entities := extraction.entities.foldl (applyEntityCandidate post) graph.entities
  let concepts := extraction.concepts.foldl (applyConceptCandidate post) graph.concepts
  let st :=
    extraction.relationships.foldl (applyRelationshipCandidate post)
      (graph.relationships, entities, concepts)
  { entities := st.2.1
    concepts := st.2.2
    relationships := st.1
    metadata :=
      { totalPostsProcessed := graph.metadata.totalPostsProcessed + 1
        lastUpdated := now
        dateRangeEarliest :=
          if graph.metadata.dateRangeEarliest = "" ∨
              post.date < graph.metadata.dateRangeEarliest
          then post.date else graph.metadata.dateRangeEarliest
        dateRangeLatest :=
          if graph.metadata.dateRangeLatest = "" ∨
              graph.metadata.dateRangeLatest < post.date
          then post.date else graph.metadata.dateRangeLatest
        authorName := graph.metadata.authorName } }

/-! ## Basic facts about the JS map operations -/

theorem jmGet_mem {α : Type} {m : JsMap α} {k : String} {v : α}
    (h : jmGet m k = some v) : (k, v) ∈ m := by
  rw [jmGet] at h
  rcases Option.map_eq_some'.mp h with ⟨kv, hfind, hsnd⟩
  have hk : kv.1 = k := by
    have := List.find?_some hfind
    simpa using this
  have hmem := List.mem_of_find?_eq_some hfind
  have : kv = (k, v) := by
    cases kv
    simp_all
  rwa [this] at hmem

theorem mem_jmSet {α : Type} {m : JsMap α} {k : String} {v : α} :
    ∀ kv ∈ jmSet m k v, kv = (k, v) ∨ kv ∈ m := by
  induction m with
  | nil => intro kv hkv; simp [jmSet] at hkv; simp [hkv]
  | cons hd tl ih =>
    intro kv hkv
    rw [jmSet] at hkv
    by_cases hhd : hd.1 = k
    · simp [hhd] at hkv
      rcases hkv with h | h
      · exact Or.inl h
      · exact Or.inr (List.mem_cons_of_mem _ h)
    · simp [hhd] at hkv
      rcases hkv with h | h
      · exact Or.inr (by rw [h]; exact List.mem_cons_self hd tl)
      · rcases ih kv h with h' | h'
        · exact Or.inl h'
        · exact Or.inr (List.mem_cons_of_mem _ h')

/-! ## Claim C1: significance vs. occurrence count under `applyExtraction` -/

/-- The occurrence-count/significance correspondence `applyExtraction`
maintains for every stored item: ≥ 5 occurrences ⇒ `major`, and 2–4
occurrences ⇒ `moderate` (exactly — which is where the code departs from the
spec's "at least moderate, never demoted"). -/
def SigOccInv {α : Type} (occLen : α → Nat) (sig : α → Significance)
    (m : JsMap α) : Prop :=
  ∀ kv ∈ m,
    (5 ≤ occLen kv.2 → sig kv.2 = Significance.major) ∧
    (2 ≤ occLen kv.2 → occLen kv.2 < 5 → sig kv.2 = Significance.moderate)

theorem sigOccInv_jmSet {α : Type} {occLen : α → Nat} {sig : α → Significance}
    {m : JsMap α} {k : String} {v : α}
    (hm : SigOccInv occLen sig m)
    (hv : (5 ≤ occLen v → sig v = Significance.major) ∧
      (2 ≤ occLen v → occLen v < 5 → sig v = Significance.moderate)) :
    SigOccInv occLen sig (jmSet m k v) := by
  intro kv hkv
  rcases mem_jmSet kv hkv with h | h
  · rw [h]
    exact hv
  · exact hm kv h

theorem sigOccInv_jmSet_preserve {α : Type} {occLen : α → Nat}
    {sig : α → Significance} {m : JsMap α} {k : String} {v v' : α}
    (hm : SigOccInv occLen sig m) (hg : jmGet m k = some v)
    (hocc : occLen v' = occLen v) (hsig : sig v' = sig v) :
    SigOccInv occLen sig (jmSet m k v') := by
  refine sigOccInv_jmSet hm ?_
  have hv := hm (k, v) (jmGet_mem hg)
  rw [hocc, hsig]
  exact hv

/-- Entity-map instance of the invariant. -/
def SigOccInvE (m : JsMap Entity) : Prop :=
  SigOccInv (fun e => e.occurrences.length) Entity.significance m

/-- Concept-map instance of the invariant. -/
def SigOccInvC (m : JsMap KGConcept) : Prop :=
  SigOccInv (fun c => c.occurrences.length) KGConcept.significance m

theorem promoteSignificanceE_occurrences (e : Entity) :
    (promoteSignificanceE e).occurrences = e.occurrences := by
  rw [promoteSignificanceE]
  split
  · rfl
  · split <;> rfl

theorem promoteSignificanceE_inv (e : Entity) :
    (5 ≤ (promoteSignificanceE e).occurrences.length →
      (promoteSignificanceE e).significance = Significance.major) ∧
    (2 ≤ (promoteSignificanceE e).occurrences.length →
      (promoteSignificanceE e).occurrences.length < 5 →
      (promoteSignificanceE e).significance = Significance.moderate) := by
  rw [promoteSignificanceE]
  by_cases h5 : 5 ≤ e.occurrences.length
  · rw [if_pos h5]
    exact ⟨fun _ => rfl, fun _ h => absurd h5 (by simpa using h)⟩
  · rw [if_neg h5]
    by_cases h2 : 2 ≤ e.occurrences.length
    · rw [if_pos h2]
      exact ⟨fun h => absurd h h5, fun _ _ => rfl⟩
    · rw [if_neg h2]
      exact ⟨fun h => absurd h h5, fun h _ => absurd h h2⟩

theorem promoteSignificanceC_occurrences (c : KGConcept) :
    (promoteSignificanceC c).occurrences = c.occurrences := by
  rw [promoteSignificanceC]
  split
  · rfl
  · split <;> rfl

theorem promoteSignificanceC_inv (c : KGConcept) :
    (5 ≤ (promoteSignificanceC c).occurrences.length →
      (promoteSignificanceC c).significance = Significance.major) ∧
    (2 ≤ (promoteSignificanceC c).occurrences.length →
      (promoteSignificanceC c).occurrences.length < 5 →
      (promoteSignificanceC c).significance = Significance.moderate) := by
  rw [promoteSignificanceC]
  by_cases h5 : 5 ≤ c.occurrences.length
  · rw [if_pos h5]
    exact ⟨fun _ => rfl, fun _ h => absurd h5 (by simpa using h)⟩
  · rw [if_neg h5]
    by_cases h2 : 2 ≤ c.occurrences.length
    · rw [if_pos h2]
      exact ⟨fun h => absurd h h5, fun _ _ => rfl⟩
    · rw [if_neg h2]
      exact ⟨fun h => absurd h h5, fun h _ => absurd h h2⟩

theorem applyEntityCandidate_sigOccInv {post : Post} {m : JsMap Entity}
    {c : ExtractedEntity} (hm : SigOccInvE m) :
    SigOccInvE (applyEntityCandidate post m c) := by
  rw [applyEntityCandidate]
  cases hget : jmGet m (generateId c.name) with
  | some existing =>
    simp only [hget]
    exact sigOccInv_jmSet hm (promoteSignificanceE_inv _)
  | none =>
    simp only [hget]
    apply sigOccInv_jmSet hm
    exact ⟨fun h => by simp at h, fun h => by simp at h⟩

theorem applyConceptCandidate_sigOccInv {post : Post} {m : JsMap KGConcept}
    {c : ExtractedConcept} (hm : SigOccInvC m) :
    SigOccInvC (applyConceptCandidate post m c) := by
  rw [applyConceptCandidate]
  cases hget : jmGet m (generateId c.name) with
  | some existing =>
    simp only [hget]
    exact sigOccInv_jmSet hm (promoteSignificanceC_inv _)
  | none =>
    simp only [hget]
    apply sigOccInv_jmSet hm
    exact ⟨fun h => by simp at h, fun h => by simp at h⟩

theorem entPushRelatedEntity_sigOccInv {m : JsMap Entity} {id x : String}
    (hm : SigOccInvE m) : SigOccInvE (entPushRelatedEntity m id x) := by
  rw [entPushRelatedEntity]
  cases hget : jmGet m id with
  | some e => exact sigOccInv_jmSet_preserve hm hget rfl rfl
  | none => exact hm

theorem entPushRelatedConcept_sigOccInv {m : JsMap Entity} {id x : String}
    (hm : SigOccInvE m) : SigOccInvE (entPushRelatedConcept m id x) := by
  rw [entPushRelatedConcept]
  cases hget : jmGet m id with
  | some e => exact sigOccInv_jmSet_preserve hm hget rfl rfl
  | none => exact hm

theorem conPushRelatedConcept_sigOccInv {m : JsMap KGConcept} {id x : String}
    (hm : SigOccInvC m) : SigOccInvC (conPushRelatedConcept m id x) := by
  rw [conPushRelatedConcept]
  cases hget : jmGet m id with
  | some c => exact sigOccInv_jmSet_preserve hm hget rfl rfl
  | none => exact hm

theorem conPushRelatedEntity_sigOccInv {m : JsMap KGConcept} {id x : String}
    (hm : SigOccInvC m) : SigOccInvC (conPushRelatedEntity m id x) := by
  rw [conPushRelatedEntity]
  cases hget : jmGet m id with
  | some c => exact sigOccInv_jmSet_preserve hm hget rfl rfl
  | none => exact hm

theorem applyRelationshipCandidate_sigOccInv {post : Post}
    {st : List Relationship × JsMap Entity × JsMap KGConcept}
    {c : ExtractedRelationship}
    (hE : SigOccInvE st.2.1) (hC : SigOccInvC st.2.2) :
    SigOccInvE (applyRelationshipCandidate post st c).2.1 ∧
      SigOccInvC (applyRelationshipCandidate post st c).2.2 := by
  obtain ⟨rels, entities, concepts⟩ := st
  rw [applyRelationshipCandidate]
  simp only
  constructor
  all_goals
    split <;> split <;> split <;> split <;>
      repeat
        first
          | exact hE
          | exact hC
          | apply entPushRelatedEntity_sigOccInv
          | apply entPushRelatedConcept_sigOccInv
          | apply conPushRelatedConcept_sigOccInv
          | apply conPushRelatedEntity_sigOccInv

theorem foldl_entityCandidates_sigOccInv (post : Post) :
    ∀ (l : List ExtractedEntity) (m : JsMap Entity), SigOccInvE m →
      SigOccInvE (l.foldl (applyEntityCandidate post) m)
  | [], m, hm => hm
  | c :: rest, m, hm =>
    foldl_entityCandidates_sigOccInv post rest _ (applyEntityCandidate_sigOccInv hm)

theorem foldl_conceptCandidates_sigOccInv (post : Post) :
    ∀ (l : List ExtractedConcept) (m : JsMap KGConcept), SigOccInvC m →
      SigOccInvC (l.foldl (applyConceptCandidate post) m)
  | [], m, hm => hm
  | c :: rest, m, hm =>
    foldl_conceptCandidates_sigOccInv post rest _ (applyConceptCandidate_sigOccInv hm)

theorem foldl_relCandidates_sigOccInv (post : Post) :
    ∀ (l : List ExtractedRelationship)
      (st : List Relationship × JsMap Entity × JsMap KGConcept),
      SigOccInvE st.2.1 → SigOccInvC st.2.2 →
      SigOccInvE (l.foldl (applyRelationshipCandidate post) st).2.1 ∧
        SigOccInvC (l.foldl (applyRelationshipCandidate post) st).2.2
  | [], st, hE, hC => ⟨hE, hC⟩
  | c :: rest, st, hE, hC => by
    have h := @applyRelationshipCandidate_sigOccInv post st c hE hC
    exact foldl_relCandidates_sigOccInv post rest _ h.1 h.2

/-- Claim C1 (amended): under `applyExtraction` alone, every stored
entity/concept satisfies the occurrence-count/significance correspondence
the code enforces — at least 5 occurrences ⇒ `major`, 2 to 4 occurrences ⇒
exactly `moderate` (which can demote a previously-`major` item, contrary to
the original claim), fewer than 2 ⇒ the significance the item was created
with.  The correspondence is an invariant: it holds of the empty graph and
is preserved by every `applyExtraction` call. -/
theorem applyExtraction_sigOccInv (graph : KnowledgeGraph)
    (extraction : ExtractionResult) (post : Post) (now : String)
    (hE : SigOccInvE graph.entities) (hC : SigOccInvC graph.concepts) :
    SigOccInvE (applyExtraction graph extraction post now).entities ∧
      SigOccInvC (applyExtraction graph extraction post now).concepts := by
  have h1 := foldl_entityCandidates_sigOccInv post extraction.entities graph.entities hE
  have h2 := foldl_conceptCandidates_sigOccInv post extraction.concepts graph.concepts hC
  have h3 := foldl_relCandidates_sigOccInv post extraction.relationships
    (graph.relationships,
      extraction.entities.foldl (applyEntityCandidate post) graph.entities,
      extraction.concepts.foldl (applyConceptCandidate post) graph.concepts) h1 h2
  exact ⟨h3.1, h3.2⟩

/-! ## Concrete sample inputs used by counterexamples and witnesses -/

def samplePost1 : Post :=
  { id := "1", title := "Doc1", date := "2020-01-01", content := "",
    wordCount := 0, filename := "a.html", links := [] }

def samplePost2 : Post :=
  { id := "2", title := "Doc2", date := "2020-02-01", content := "",
    wordCount := 0, filename := "b.html", links := [] }

/-- An entity candidate the model rated `major`. -/
def sampleMajorCandidate : ExtractedEntity :=
  { name := "Grimes", isNew := true, type := EntityType.person,
    description := "musician", aliases := [], contextInThisPost := "ctx",
    significanceInThisPost := "central", significance := Significance.major }

def sampleMajorExtraction : ExtractionResult :=
  { entities := [sampleMajorCandidate], concepts := [], relationships := [] }

/-- Claim C1, counterexample: applying the same `major`-rated entity
candidate to an empty graph and then once more demotes the entity from
`major` (1 occurrence) to `moderate` (2 occurrences) — repeated
`applyExtraction` calls alone do lower significance, because the
`>= 2 ⇒ 'moderate'` branch overwrites `'major'` unconditionally. -/
theorem applyExtraction_demotes_significance :
    ((jmGet (applyExtraction (createEmptyGraph "t0") sampleMajorExtraction
        samplePost1 "t1").entities "grimes").map Entity.significance =
      some Significance.major) ∧
    ((jmGet (applyExtraction
        (applyExtraction (createEmptyGraph "t0") sampleMajorExtraction samplePost1 "t1")
        sampleMajorExtraction samplePost2 "t2").entities "grimes").map
          Entity.significance = some Significance.moderate) := by
  decide

/-- Witness for `applyExtraction_sigOccInv` at a concrete input. -/
theorem applyExtraction_sigOccInv_witness :
    SigOccInvE (applyExtraction (createEmptyGraph "t0") sampleMajorExtraction
      samplePost1 "t1").entities ∧
    SigOccInvC (applyExtraction (createEmptyGraph "t0") sampleMajorExtraction
      samplePost1 "t1").concepts :=
  applyExtraction_sigOccInv (createEmptyGraph "t0") sampleMajorExtraction
    samplePost1 "t1"
    (by intro kv hkv; simp [createEmptyGraph] at hkv)
    (by intro kv hkv; simp [createEmptyGraph] at hkv)

/-! ## Claim C5: self-loop relationship candidates -/

/-- "Grimes" and "Grimes!" normalize to the same id `grimes`. -/
def sampleSelfLoopRel : ExtractedRelationship :=
  { source := "Grimes", target := "Grimes!", type := "cites",
    description := "self-citation", evidenceQuote := "q" }

def sampleSelfLoopExtraction : ExtractionResult :=
  { entities := [], concepts := [], relationships := [sampleSelfLoopRel] }

/-- Claim C5, counterexample: `applyExtraction` has no self-loop check — a
candidate whose source and target names normalize to the same id is stored
as a relationship with `sourceId = targetId`. -/
theorem applyExtraction_self_loop_counterexample :
    (applyExtraction (createEmptyGraph "t0") sampleSelfLoopExtraction
      samplePost1 "t1").relationships =
      [{ id := "grimes-cites-grimes", sourceId := "grimes", targetId := "grimes",
         type := "cites", description := "self-citation", evidence := ["Doc1"] }] := by
  decide

/-- Claim C5 (amended): self-loop candidates are not rejected at the apply
boundary; a candidate whose source and target normalize to the same id is
appended to the relationship list like any other new relationship (subject
only to the usual triple-dedup lookup). -/
theorem applyExtraction_self_loop_inserted (graph : KnowledgeGraph)
    (extraction : ExtractionResult) (post : Post) (now : String)
    (c : ExtractedRelationship)
    (hrels : extraction.relationships = [c])
    (hself : generateId c.target = generateId c.source)
    (hnone : graph.relationships.any
      (relMatches (generateId c.source) (generateId c.source) c.type) = false) :
    (applyExtraction graph extraction post now).relationships =
      graph.relationships ++
        [{ id := generateId c.source ++ "-" ++ c.type ++ "-" ++ generateId c.source
           sourceId := generateId c.source
           targetId := generateId c.source
           type := c.type
           description := c.description
           evidence := [post.title] }] ∧
    ∃ r ∈ (applyExtraction graph extraction post now).relationships,
      r.sourceId = r.targetId := by
  have h1 : (applyExtraction graph extraction post now).relationships =
      graph.relationships ++
        [{ id := generateId c.source ++ "-" ++ c.type ++ "-" ++ generateId c.source
           sourceId := generateId c.source
           targetId := generateId c.source
           type := c.type
           description := c.description
           evidence := [post.title] }] := by
    simp only [applyExtraction, hrels, List.foldl, applyRelationshipCandidate,
      hself, hnone]
    rfl
  refine ⟨h1, ?_⟩
  rw [h1]
  exact ⟨_, List.mem_append_right _ (List.mem_singleton_self _), rfl⟩

/-- Witness for `applyExtraction_self_loop_inserted` at a concrete input. -/
theorem applyExtraction_self_loop_inserted_witness :
    (applyExtraction (createEmptyGraph "t0") sampleSelfLoopExtraction
      samplePost1 "t1").relationships =
      (createEmptyGraph "t0").relationships ++
        [{ id := "grimes" ++ "-" ++ "cites" ++ "-" ++ "grimes"
           sourceId := "grimes"
           targetId := "grimes"
           type := "cites"
           description := "self-citation"
           evidence := ["Doc1"] }] ∧
    ∃ r ∈ (applyExtraction (createEmptyGraph "t0") sampleSelfLoopExtraction
      samplePost1 "t1").relationships, r.sourceId = r.targetId := by
  have h := applyExtraction_self_loop_inserted (createEmptyGraph "t0")
    sampleSelfLoopExtraction samplePost1 "t1" sampleSelfLoopRel rfl (by decide)
    (by decide)
  exact h

/-! ## Claim C3: relationship identity under `applyExtraction` -/

/-- If an extraction carries exactly one relationship candidate and no
stored relationship matches its normalized triple, `applyExtraction`
appends one new relationship record for it. -/
theorem applyExtraction_rel_new (graph : KnowledgeGraph)
    (extraction : ExtractionResult) (post : Post) (now : String)
    (c : ExtractedRelationship)
    (hrels : extraction.relationships = [c])
    (hnone : graph.relationships.any
      (relMatches (generateId c.source) (generateId c.target) c.type) = false) :
    (applyExtraction graph extraction post now).relationships =
      graph.relationships ++
        [{ id := generateId c.source ++ "-" ++ c.type ++ "-" ++ generateId c.target
           sourceId := generateId c.source
           targetId := generateId c.target
           type := c.type
           description := c.description
           evidence := [post.title] }] := by
  simp only [applyExtraction, hrels, List.foldl, applyRelationshipCandidate, hnone]
  rfl

/-- If an extraction carries exactly one relationship candidate and some
stored relationship already matches its normalized triple, `applyExtraction`
only appends the post title to the first match's evidence. -/
theorem applyExtraction_rel_existing (graph : KnowledgeGraph)
    (extraction : ExtractionResult) (post : Post) (now : String)
    (c : ExtractedRelationship)
    (hrels : extraction.relationships = [c])
    (hsome : graph.relationships.any
      (relMatches (generateId c.source) (generateId c.target) c.type) = true) :
    (applyExtraction graph extraction post now).relationships =
      updateFirstRel graph.relationships (generateId c.source)
        (generateId c.target) c.type post.title := by
  simp only [applyExtraction, hrels, List.foldl, applyRelationshipCandidate, hsome]
  rfl

theorem updateFirstRel_append_of_no_match {l : List Relationship}
    {s t ty : String} (r : Relationship) (title : String)
    (hl : l.any (relMatches s t ty) = false)
    (hr : relMatches s t ty r = true) :
    updateFirstRel (l ++ [r]) s t ty title =
      l ++ [{ r with evidence := pushIfAbsent r.evidence title }] := by
  induction l with
  | nil => simp [updateFirstRel, hr]
  | cons hd tl ih =>
    rw [List.any_cons, Bool.or_eq_false_iff] at hl
    have hhd : relMatches s t ty hd = false := hl.1
    have htl : tl.any (relMatches s t ty) = false := hl.2
    simp only [List.cons_append, updateFirstRel]
    rw [if_neg (by simp [hhd]), List.append_eq, ih htl]

theorem filter_append_singleton_of_no_match {l : List Relationship}
    {p : Relationship → Bool} (r : Relationship)
    (hl : l.any p = false) (hr : p r = true) :
    (l ++ [r]).filter p = [r] := by
  rw [List.filter_append]
  have h1 : l.filter p = [] := by
    rw [List.filter_eq_nil]
    intro a ha
    have := List.any_eq_false.mp hl a ha
    simpa using this
  simp [h1, List.filter, hr]

/-- Claim C3: relationship identity.  Two extractions proposing the same
(source, type, target) candidate from two different documents produce
exactly one stored relationship for the normalized triple, whose evidence
records both document titles (length 2): the second apply finds the
existing record by `(sourceId, targetId, type)` and appends the new title
instead of creating a duplicate. -/
theorem applyExtraction_relationship_identity (graph : KnowledgeGraph)
    (e1 e2 : ExtractionResult) (p1 p2 : Post) (now1 now2 : String)
    (c1 c2 : ExtractedRelationship)
    (h1 : e1.relationships = [c1]) (h2 : e2.relationships = [c2])
    (hs : c2.source = c1.source) (ht : c2.target = c1.target)
    (hty : c2.type = c1.type)
    (hnone : graph.relationships.any
      (relMatches (generateId c1.source) (generateId c1.target) c1.type) = false)
    (htitle : p2.title ≠ p1.title) :
    (applyExtraction (applyExtraction graph e1 p1 now1) e2 p2 now2).relationships.filter
        (relMatches (generateId c1.source) (generateId c1.target) c1.type) =
      [{ id := generateId c1.source ++ "-" ++ c1.type ++ "-" ++ generateId c1.target
         sourceId := generateId c1.source
         targetId := generateId c1.target
         type := c1.type
         description := c1.description
         evidence := [p1.title, p2.title] }] ∧
    ((applyExtraction (applyExtraction graph e1 p1 now1) e2 p2 now2).relationships.filter
        (relMatches (generateId c1.source) (generateId c1.target) c1.type)).length = 1 ∧
    (∀ r ∈ (applyExtraction (applyExtraction graph e1 p1 now1) e2 p2 now2).relationships.filter
        (relMatches (generateId c1.source) (generateId c1.target) c1.type),
      r.evidence.length = 2) := by
  set newRel : Relationship :=
    { id := generateId c1.source ++ "-" ++ c1.type ++ "-" ++ generateId c1.target
      sourceId := generateId c1.source
      targetId := generateId c1.target
      type := c1.type
      description := c1.description
      evidence := [p1.title] } with hnewRel
  have hmatch : relMatches (generateId c1.source) (generateId c1.target) c1.type newRel = true := by
    simp [relMatches, hnewRel]
  have hg1 : (applyExtraction graph e1 p1 now1).relationships =
      graph.relationships ++ [newRel] :=
    applyExtraction_rel_new graph e1 p1 now1 c1 h1 hnone
  have hany : (applyExtraction graph e1 p1 now1).relationships.any
      (relMatches (generateId c2.source) (generateId c2.target) c2.type) = true := by
    rw [hg1, hs, ht, hty]
    rw [List.any_append]
    simp [hmatch]
  have hg2 : (applyExtraction (applyExtraction graph e1 p1 now1) e2 p2 now2).relationships =
      graph.relationships ++
        [{ newRel with evidence := pushIfAbsent newRel.evidence p2.title }] := by
    rw [applyExtraction_rel_existing (applyExtraction graph e1 p1 now1) e2 p2 now2 c2 h2 hany,
      hg1, hs, ht, hty]
    exact updateFirstRel_append_of_no_match newRel p2.title hnone hmatch
  have hpush : pushIfAbsent newRel.evidence p2.title = [p1.title, p2.title] := by
    rw [hnewRel, pushIfAbsent]
    simp [htitle]
  have hmatch' : relMatches (generateId c1.source) (generateId c1.target) c1.type
      { newRel with evidence := pushIfAbsent newRel.evidence p2.title } = true := by
    simp [relMatches, hnewRel]
  have hfilter := @filter_append_singleton_of_no_match graph.relationships
    (relMatches (generateId c1.source) (generateId c1.target) c1.type)
    { newRel with evidence := pushIfAbsent newRel.evidence p2.title } hnone hmatch'
  rw [hg2, hfilter, hpush]
  refine ⟨rfl, rfl, ?_⟩
  intro r hr
  simp at hr
  rw [hr]
  rfl

/-- Relationship candidate (A, influences, B). -/
def sampleRelCandidateAB : ExtractedRelationship :=
  { source := "A", target := "B", type := "influences",
    description := "d", evidenceQuote := "q" }

def sampleRelExtractionAB : ExtractionResult :=
  { entities := [], concepts := [], relationships := [sampleRelCandidateAB] }

/-- Witness for `applyExtraction_relationship_identity` at concrete
inputs. -/
theorem applyExtraction_relationship_identity_witness :
    (applyExtraction (applyExtraction (createEmptyGraph "t0")
        sampleRelExtractionAB samplePost1 "t1")
      sampleRelExtractionAB samplePost2 "t2").relationships.filter
        (relMatches (generateId "A") (generateId "B") "influences") =
      [{ id := generateId "A" ++ "-" ++ "influences" ++ "-" ++ generateId "B"
         sourceId := generateId "A"
         targetId := generateId "B"
         type := "influences"
         description := "d"
         evidence := ["Doc1", "Doc2"] }] := by
  have h := applyExtraction_relationship_identity (createEmptyGraph "t0")
    sampleRelExtractionAB sampleRelExtractionAB samplePost1 samplePost2 "t1" "t2"
    sampleRelCandidateAB sampleRelCandidateAB
    rfl rfl rfl rfl rfl (by decide) (by decide)
  exact h.1

/-! ## Claim C10: the `isNew` hint is ignored -/

/-- Normalize all `isNew` hints to `true`; two extraction results "differ
only in `isNew` flags" exactly when they have the same image under this
map. -/
def eraseIsNew (e : ExtractionResult) : ExtractionResult :=
  { entities := e.entities.map (fun c => { c with isNew := true })
    concepts := e.concepts.map (fun c => { c with isNew := true })
    relationships := e.relationships }

theorem applyEntityCandidate_isNew (post : Post) (m : JsMap Entity)
    (c : ExtractedEntity) (b : Bool) :
    applyEntityCandidate post m { c with isNew := b } =
      applyEntityCandidate post m c := by
  cases c
  rfl

theorem applyConceptCandidate_isNew (post : Post) (m : JsMap KGConcept)
    (c : ExtractedConcept) (b : Bool) :
    applyConceptCandidate post m { c with isNew := b } =
      applyConceptCandidate post m c := by
  cases c
  rfl

theorem foldl_entity_eraseIsNew (post : Post) :
    ∀ (l : List ExtractedEntity) (m : JsMap Entity),
      (l.map (fun c => { c with isNew := true })).foldl (applyEntityCandidate post) m =
        l.foldl (applyEntityCandidate post) m
  | [], _ => rfl
  | c :: rest, m => by
    rw [List.map_cons, List.foldl_cons, List.foldl_cons,
      applyEntityCandidate_isNew, foldl_entity_eraseIsNew post rest]

theorem foldl_concept_eraseIsNew (post : Post) :
    ∀ (l : List ExtractedConcept) (m : JsMap KGConcept),
      (l.map (fun c => { c with isNew := true })).foldl (applyConceptCandidate post) m =
        l.foldl (applyConceptCandidate post) m
  | [], _ => rfl
  | c :: rest, m => by
    rw [List.map_cons, List.foldl_cons, List.foldl_cons,
      applyConceptCandidate_isNew, foldl_concept_eraseIsNew post rest]

theorem applyExtraction_eraseIsNew (graph : KnowledgeGraph)
    (extraction : ExtractionResult) (post : Post) (now : String) :
    applyExtraction graph (eraseIsNew extraction) post now =
      applyExtraction graph extraction post now := by
  simp only [applyExtraction, eraseIsNew, foldl_entity_eraseIsNew,
    foldl_concept_eraseIsNew]

/-- Claim C10: `applyExtraction` never reads the `isNew` hint — two
extraction results that differ only in the `isNew` flags of their entity
and concept candidates produce identical graphs on every pre-state,
document and timestamp; whether a candidate creates or updates is decided
solely by key presence in the maps. -/
theorem applyExtraction_ignores_isNew (graph : KnowledgeGraph)
    (e1 e2 : ExtractionResult) (post : Post) (now : String)
    (h : eraseIsNew e1 = eraseIsNew e2) :
    applyExtraction graph e1 post now = applyExtraction graph e2 post now := by
  rw [← applyExtraction_eraseIsNew graph e1 post now,
    ← applyExtraction_eraseIsNew graph e2 post now, h]

/-- The `major` entity candidate with the opposite `isNew` hint. -/
def sampleMajorExtractionNotNew : ExtractionResult :=
  { entities := [{ sampleMajorCandidate with isNew := false }]
    concepts := []
    relationships := [] }

/-- Witness for `applyExtraction_ignores_isNew` at concrete inputs. -/
theorem applyExtraction_ignores_isNew_witness :
    applyExtraction (createEmptyGraph "t0") sampleMajorExtraction samplePost1 "t1" =
      applyExtraction (createEmptyGraph "t0") sampleMajorExtractionNotNew samplePost1 "t1" :=
  applyExtraction_ignores_isNew (createEmptyGraph "t0") sampleMajorExtraction
    sampleMajorExtractionNotNew samplePost1 "t1" (by decide)

/-! ## Claim C4: what `applyExtraction` does to the pre-call graph

`applyExtraction` starts with `const updatedGraph = { ...graph }` and then
fresh `new Map`/`[...]` copies of the two maps and the relationship array —
but the copies are shallow.  Consequences, read off the source line by
line: (1) `updatedGraph.metadata` is the same object as `graph.metadata`
and is updated in place, so the caller's graph sees the new metadata;
(2) the copied relationship array holds the caller's relationship objects,
and the array itself only grows at the end, so through the pre-call
reference the old array shows the first `|old|` entries of the result;
(3) an entity/concept processed as a candidate is replaced by a fresh
spread object written only to the new map (the caller keeps the old
object), while every other entry still shares its object with the new map,
so any related-id pushes on it are visible to the caller too. -/

/-- The state of the pre-call graph object after `applyExtraction graph
extraction post now` returns, as observed through the caller's retained
reference. -/
def applyExtractionCallerView (graph : KnowledgeGraph)
    (extraction : ExtractionResult) (post : Post) (now : String) :
    KnowledgeGraph :=
  let result := applyExtraction graph extraction post now
  let entityIds := extraction.entities.map (fun c => generateId c.name)
  let conceptIds := extraction.concepts.map (fun c => generateId c.name)
  { entities := graph.entities.map (fun kv =>
      if kv.1 ∈ entityIds then kv else (kv.1, (jmGet result.entities kv.1).getD kv.2))
    concepts := graph.concepts.map (fun kv =>
      if kv.1 ∈ conceptIds then kv else (kv.1, (jmGet result.concepts kv.1).getD kv.2))
    relationships := result.relationships.take graph.relationships.length
    metadata := result.metadata }

/-- Claim C4, counterexample: `applyExtraction` does not leave the pre-call
graph unchanged — even for an empty extraction, the shared metadata object
is mutated in place (`totalPostsProcessed++`, `lastUpdated`, date range),
so the caller's graph differs from what it was before the call. -/
theorem applyExtraction_mutates_caller_graph :
    applyExtractionCallerView (createEmptyGraph "t0")
        { entities := [], concepts := [], relationships := [] }
        samplePost1 "t1" ≠
      createEmptyGraph "t0" := by
  decide

/-- Claim C4 (amended): `applyExtraction` copies the two maps and the
relationship array (the caller's map keeps its own keys and the old array
its length), but does not deep-copy: the metadata object is shared with the
pre-call graph and mutated in place — through the caller's reference
`totalPostsProcessed` is incremented on every call. -/
theorem applyExtraction_caller_metadata (graph : KnowledgeGraph)
    (extraction : ExtractionResult) (post : Post) (now : String) :
    (applyExtractionCallerView graph extraction post now).metadata =
      (applyExtraction graph extraction post now).metadata ∧
    (applyExtractionCallerView graph extraction post now).metadata.totalPostsProcessed =
      graph.metadata.totalPostsProcessed + 1 ∧
    (applyExtractionCallerView graph extraction post now).entities.map Prod.fst =
      graph.entities.map Prod.fst := by
  refine ⟨rfl, rfl, ?_⟩
  rw [applyExtractionCallerView]
  simp only [List.map_map]
  have : ∀ kv : String × Entity,
      (Prod.fst ∘ fun kv : String × Entity =>
        if kv.1 ∈ extraction.entities.map (fun c => generateId c.name) then kv
        else (kv.1, (jmGet (applyExtraction graph extraction post now).entities kv.1).getD kv.2)) kv =
      kv.1 := by
    intro kv
    simp only [Function.comp_apply]
    split
    · rfl
    · rfl
  exact List.map_congr_left fun kv _ => this kv

/-! ## Consolidation engine (src/graphManager.ts): `applyIntegration` -/

/-- The in-place rewrite `if (rel.sourceId === merge.merge) rel.sourceId =
merge.keep` (and the same for `targetId`) applied to one relationship. -/
def rewriteRelIds (mg keep : String) (r : Relationship) : Relationship :=
  { r with
    sourceId := if r.sourceId = mg then keep else r.sourceId
    targetId := if r.targetId = mg then keep else r.targetId }

/-- One iteration of the `for (const merge of integration.merges)` loop.
The four lookups happen before either branch, as in the source. -/
def applyMergeInstruction
    (st : JsMap Entity × JsMap KGConcept × List Relationship)
    (m : MergeInstruction) :
    JsMap Entity × JsMap KGConcept × List Relationship :=
  let (entities, concepts, rels) := st
  let keepEntity := jmGet entities m.keep
  let mergeEntity := jmGet entities m.merge
  let keepConcept := jmGet concepts m.keep
  let mergeConcept := jmGet concepts m.merge
  let (entities, rels) :=
    match keepEntity, mergeEntity with
    | some k, some mg =>
      let merged : Entity :=
        { k with
          occurrences := k.occurrences ++ mg.occurrences
          aliases := mergeArrays [k.aliases, mg.aliases, [mg.name]]
          relatedEntities := mergeArrays [k.relatedEntities, mg.relatedEntities]
          relatedConcepts := mergeArrays [k.relatedConcepts, mg.relatedConcepts] }
      let merged :=
        if 5 ≤ merged.occurrences.length then
          { merged with significance := Significance.major }
        else merged
      (jmDelete (jmSet entities m.keep merged) m.merge,
        rels.map (rewriteRelIds m.merge m.keep))
    | _, _ => (entities, rels)
  let (concepts, rels) :=
    match keepConcept, mergeConcept with
    | some k, some mg =>
      let merged : KGConcept :=
        { k with
          occurrences := k.occurrences ++ mg.occurrences
          alternateTerms := mergeArrays [k.alternateTerms, mg.alternateTerms, [mg.name]]
          domains := mergeArrays [k.domains, mg.domains]
          evolution := k.evolution ++ mg.evolution
          relatedConcepts := mergeArrays [k.relatedConcepts, mg.relatedConcepts]
          relatedEntities := mergeArrays [k.relatedEntities, mg.relatedEntities] }
      let merged :=
        if 5 ≤ merged.occurrences.length then
          { merged with significance := Significance.major }
        else merged
      (jmDelete (jmSet concepts m.keep merged) m.merge,
        rels.map (rewriteRelIds m.merge m.keep))
    | _, _ => (concepts, rels)
  (entities, concepts, rels)

/-- One iteration of the `for (const newRel of integration.newRelationships)`
loop: add only if no identical triple exists. -/
def applyNewRelationship (rels : List Relationship)
    (nr : ExtractedRelationship) : List Relationship :=
  let sourceId := generateId nr.source
  let targetId := generateId nr.target
  if rels.any (relMatches sourceId targetId nr.type) then rels
  else
    rels ++
      [{ id := sourceId ++ "-" ++ nr.type ++ "-" ++ targetId
         sourceId := sourceId
         targetId := targetId
         type := nr.type
         description := nr.description
         evidence := [nr.evidenceQuote] }]

/-- One iteration of the `for (const update of integration.updatedSignificance)`
loop: direct overwrite on whichever map holds the id (both are checked). -/
def applySignificanceUpdate (st : JsMap Entity × JsMap KGConcept)
    (u : SignificanceUpdate) : JsMap Entity × JsMap KGConcept :=
  let entities :=
    match jmGet st.1 u.id with
    | some e => jmSet st.1 u.id { e with significance := u.newSignificance }
    | none => st.1
  let concepts :=
    match jmGet st.2 u.id with
    | some c => jmSet st.2 u.id { c with significance := u.newSignificance }
    | none => st.2
  (entities, concepts)

/-- One iteration of the `for (const update of integration.descriptionUpdates)`
loop. -/
def applyDescriptionUpdate (st : JsMap Entity × JsMap KGConcept)
    (u : DescriptionUpdate) : JsMap Entity × JsMap KGConcept :=
  let entities :=
    match jmGet st.1 u.id with
    | some e => jmSet st.1 u.id { e with description := u.newDescription }
    | none => st.1
  let concepts :=
    match jmGet st.2 u.id with
    | some c => jmSet st.2 u.id { c with description := u.newDescription }
    | none => st.2
  (entities, concepts)

/-- The key `${rel.sourceId}-${rel.type}-${rel.targetId}` of the final
dedup pass. -/
def relKey (r : Relationship) : String :=
  r.sourceId ++ "-" ++ r.type ++ "-" ++ r.targetId

/-- `uniqueRels.get(key)!.evidence = mergeArrays(existing.evidence,
rel.evidence)`: update the (unique) entry already stored under `key`. -/
def dedupUpdateFirst :
    List (String × Relationship) → String → List String →
      List (String × Relationship)
  | [], _, _ => []
  | (k, ex) :: rest, key, ev =>
    if k = key then (k, { ex with evidence := mergeArrays [ex.evidence, ev] }) :: rest
    else (k, ex) :: dedupUpdateFirst rest key ev

/-- The `uniqueRels` map accumulation of the dedup pass. -/
def dedupRelsAux (acc : List (String × Relationship)) :
    List Relationship → List (String × Relationship)
  | [] => acc
  | r :: rest =>
    if acc.any (fun kv => kv.1 = relKey r) then
      dedupRelsAux (dedupUpdateFirst acc (relKey r) r.evidence) rest
    else
      dedupRelsAux (acc ++ [(relKey r, r)]) rest

/-- The `// Remove duplicate relationships` pass of `applyIntegration`:
collapse relationships that collide on the string key
`sourceId-type-targetId`, merging evidence into the first occurrence. -/
def dedupRels (rels : List Relationship) : List Relationship :=
  (dedupRelsAux [] rels).map Prod.snd

/-- `applyIntegration(graph, integration)` (src/graphManager.ts).  The
source mutates shared objects in the copied maps exactly as
`applyExtraction` does; this definition computes the returned graph
value.  `metadata` is untouched by the function. -/
def applyIntegration (graph : KnowledgeGraph)
    (integration : IntegrationResult) : KnowledgeGraph :=
  let st := integration.merges.foldl applyMergeInstruction
    (graph.entities, graph.concepts, graph.relationships)
  let rels := integration.newRelationships.foldl applyNewRelationship st.2.2
  let maps := integration.updatedSignificance.foldl applySignificanceUpdate
    (st.1, st.2.1)
  let maps := integration.descriptionUpdates.foldl applyDescriptionUpdate maps
  { entities := maps.1
    concepts := maps.2
    relationships := dedupRels rels
    metadata := graph.metadata }

theorem jmGet_jmSet_self {α : Type} (m : JsMap α) (k : String) (v : α) :
    jmGet (jmSet m k v) k = some v := by
  induction m with
  | nil => simp [jmSet, jmGet, List.find?]
  | cons kv rest ih =>
    by_cases h : kv.1 = k
    · simp [jmSet, h, jmGet, List.find?]
    · rw [jmSet, if_neg h, jmGet,
        List.find?_cons_of_neg _ (by simpa using h)]
      exact ih

theorem jmGet_jmSet_ne {α : Type} (m : JsMap α) (k k' : String) (v : α)
    (h : k' ≠ k) : jmGet (jmSet m k v) k' = jmGet m k' := by
  induction m with
  | nil =>
    rw [jmSet, jmGet, jmGet,
      List.find?_cons_of_neg _ (by simpa using fun hh : k = k' => h hh.symm)]
  | cons kv rest ih =>
    by_cases hk : kv.1 = k
    · have h2 : ¬(kv.1 = k') := by rw [hk]; exact fun hh => h hh.symm
      rw [jmSet, if_pos hk, jmGet, jmGet,
        List.find?_cons_of_neg _ (by simpa using fun hh : k = k' => h hh.symm),
        List.find?_cons_of_neg _ (by simpa using h2)]
    · by_cases hk' : kv.1 = k'
      · rw [jmSet, if_neg hk, jmGet, jmGet,
          List.find?_cons_of_pos _ (by simpa using hk'),
          List.find?_cons_of_pos _ (by simpa using hk')]
      · rw [jmSet, if_neg hk, jmGet, jmGet,
          List.find?_cons_of_neg _ (by simpa using hk'),
          List.find?_cons_of_neg _ (by simpa using hk')]
        exact ih

theorem jmGet_jmDelete_self {α : Type} (m : JsMap α) (k : String) :
    jmGet (jmDelete m k) k = none := by
  rw [jmGet, jmDelete, Option.map_eq_none', List.find?_eq_none]
  intro kv hkv
  have := (List.mem_filter.mp hkv).2
  simpa using this

theorem jmGet_jmDelete_ne {α : Type} (m : JsMap α) (k k' : String)
    (h : k' ≠ k) : jmGet (jmDelete m k) k' = jmGet m k' := by
  induction m with
  | nil => rfl
  | cons kv rest ih =>
    rw [jmDelete, List.filter_cons]
    by_cases hk : kv.1 = k
    · rw [if_neg (by simpa using hk)]
      have hr : jmGet (kv :: rest) k' = jmGet rest k' := by
        rw [jmGet, jmGet,
          List.find?_cons_of_neg _ (by
            rw [hk]
            simpa using fun hh : k = k' => h hh.symm)]
      rw [hr]
      exact ih
    · rw [if_pos (by simpa using hk)]
      by_cases hk' : kv.1 = k'
      · rw [jmGet, jmGet,
          List.find?_cons_of_pos _ (by simpa using hk'),
          List.find?_cons_of_pos _ (by simpa using hk')]
      · rw [jmGet, jmGet,
          List.find?_cons_of_neg _ (by simpa using hk'),
          List.find?_cons_of_neg _ (by simpa using hk')]
        exact ih

theorem jsSetDedupAux_mem {α : Type} [DecidableEq α] :
    ∀ (l seen : List α) (a : α), a ∈ l → a ∉ seen → a ∈ jsSetDedupAux seen l
  | [], _, a, ha, _ => by simp at ha
  | b :: rest, seen, a, ha, hseen => by
    rw [jsSetDedupAux]
    by_cases hb : b ∈ seen
    · rw [if_pos hb]
      rcases List.mem_cons.mp ha with h | h
      · exact absurd (h ▸ hb) hseen
      · exact jsSetDedupAux_mem rest seen a h hseen
    · rw [if_neg hb]
      rcases List.mem_cons.mp ha with h | h
      · exact h ▸ List.mem_cons_self _ _
      · by_cases hab : a = b
        · exact hab ▸ List.mem_cons_self _ _
        · exact List.mem_cons_of_mem _
            (jsSetDedupAux_mem rest (b :: seen) a h
              (by simp [hab, hseen]))

theorem mem_mergeArrays {α : Type} [DecidableEq α] {arrays : List (List α)}
    {a : α} (h : a ∈ arrays.flatten) : a ∈ mergeArrays arrays :=
  jsSetDedupAux_mem _ [] a h (by simp)

theorem rewriteRelIds_idem {mg keep : String} (h : keep ≠ mg)
    (r : Relationship) :
    rewriteRelIds mg keep (rewriteRelIds mg keep r) = rewriteRelIds mg keep r := by
  rw [rewriteRelIds, rewriteRelIds]
  by_cases hs : r.sourceId = mg <;> by_cases ht : r.targetId = mg <;>
    simp [hs, ht, h]

theorem map_rewriteRelIds_idem {mg keep : String} (h : keep ≠ mg)
    (l : List Relationship) :
    (l.map (rewriteRelIds mg keep)).map (rewriteRelIds mg keep) =
      l.map (rewriteRelIds mg keep) := by
  rw [List.map_map]
  exact List.map_congr_left fun r _ => rewriteRelIds_idem h r

theorem rewriteRelIds_ne_mg {mg keep : String} (h : keep ≠ mg)
    (r : Relationship) :
    (rewriteRelIds mg keep r).sourceId ≠ mg ∧
      (rewriteRelIds mg keep r).targetId ≠ mg := by
  rw [rewriteRelIds]
  by_cases hs : r.sourceId = mg <;> by_cases ht : r.targetId = mg <;>
    simp [hs, ht, h]

theorem dedupUpdateFirst_mem {Q : Relationship → Prop}
    (hQ : ∀ r ev, Q r → Q { r with evidence := ev }) :
    ∀ (acc : List (String × Relationship)) (key : String) (ev : List String),
      (∀ kv ∈ acc, Q kv.2) → ∀ kv ∈ dedupUpdateFirst acc key ev, Q kv.2
  | [], _, _, _, kv, hkv => by simp [dedupUpdateFirst] at hkv
  | (k, ex) :: rest, key, ev, hacc, kv, hkv => by
    rw [dedupUpdateFirst] at hkv
    by_cases hk : k = key
    · rw [if_pos hk] at hkv
      rcases List.mem_cons.mp hkv with h | h
      · rw [h]
        exact hQ ex _ (hacc (k, ex) (List.mem_cons_self _ _))
      · exact hacc kv (List.mem_cons_of_mem _ h)
    · rw [if_neg hk] at hkv
      rcases List.mem_cons.mp hkv with h | h
      · rw [h]
        exact hacc (k, ex) (List.mem_cons_self _ _)
      · exact dedupUpdateFirst_mem hQ rest key ev
          (fun kv' hkv' => hacc kv' (List.mem_cons_of_mem _ hkv')) kv h

theorem dedupRelsAux_mem {Q : Relationship → Prop}
    (hQ : ∀ r ev, Q r → Q { r with evidence := ev }) :
    ∀ (l : List Relationship) (acc : List (String × Relationship)),
      (∀ kv ∈ acc, Q kv.2) → (∀ r ∈ l, Q r) →
      ∀ kv ∈ dedupRelsAux acc l, Q kv.2
  | [], acc, hacc, _, kv, hkv => hacc kv hkv
  | r :: rest, acc, hacc, hl, kv, hkv => by
    rw [dedupRelsAux] at hkv
    by_cases hk : acc.any (fun kv => kv.1 = relKey r) = true
    · rw [if_pos hk] at hkv
      exact dedupRelsAux_mem hQ rest _
        (dedupUpdateFirst_mem hQ acc (relKey r) r.evidence hacc)
        (fun r' hr' => hl r' (List.mem_cons_of_mem _ hr')) kv hkv
    · rw [if_neg hk] at hkv
      refine dedupRelsAux_mem hQ rest _ ?_
        (fun r' hr' => hl r' (List.mem_cons_of_mem _ hr')) kv hkv
      intro kv' hkv'
      rcases List.mem_append.mp hkv' with h | h
      · exact hacc kv' h
      · rw [List.mem_singleton.mp h]
        exact hl r (List.mem_cons_self _ _)

theorem dedupRels_mem {Q : Relationship → Prop}
    (hQ : ∀ r ev, Q r → Q { r with evidence := ev })
    {l : List Relationship} (hl : ∀ r ∈ l, Q r) :
    ∀ r ∈ dedupRels l, Q r := by
  intro r hr
  rw [dedupRels] at hr
  rcases List.mem_map.mp hr with ⟨kv, hkv, hsnd⟩
  rw [← hsnd]
  exact dedupRelsAux_mem hQ l [] (by simp) hl kv hkv

/-! ## Claim C2: consolidation merge semantics -/

/-- The entity value produced by the merge branch of `applyIntegration`
before the occurrence-count significance check. -/
def mergedEntityValue (k mg : Entity) : Entity :=
  { k with
    occurrences := k.occurrences ++ mg.occurrences
    aliases := mergeArrays [k.aliases, mg.aliases, [mg.name]]
    relatedEntities := mergeArrays [k.relatedEntities, mg.relatedEntities]
    relatedConcepts := mergeArrays [k.relatedConcepts, mg.relatedConcepts] }

theorem applyMergeInstruction_entities_rels
    (entities : JsMap Entity) (concepts : JsMap KGConcept)
    (rels : List Relationship) (keep mg reason : String) (e1 e2 : Entity)
    (hK : jmGet entities keep = some e1)
    (hM : jmGet entities mg = some e2)
    (hne : keep ≠ mg) :
    (applyMergeInstruction (entities, concepts, rels)
        { keep := keep, merge := mg, reason := reason }).1 =
      jmDelete (jmSet entities keep
        (if 5 ≤ (mergedEntityValue e1 e2).occurrences.length then
          { mergedEntityValue e1 e2 with significance := Significance.major }
         else mergedEntityValue e1 e2)) mg ∧
    (applyMergeInstruction (entities, concepts, rels)
        { keep := keep, merge := mg, reason := reason }).2.2 =
      rels.map (rewriteRelIds mg keep) := by
  rw [applyMergeInstruction]
  simp only [hK, hM, mergedEntityValue]
  cases hc1 : jmGet concepts keep with
  | none =>
    constructor <;> first | trivial | rfl
  | some ck =>
    cases hc2 : jmGet concepts mg with
    | none =>
      constructor <;> first | trivial | rfl
    | some cm =>
      constructor <;>
        first
          | trivial
          | rfl
          | exact map_rewriteRelIds_idem hne rels

/-- Claim C2: `applyIntegration` with a single merge instruction
`{keep, merge}` where both ids are entities (3 and 2 occurrences
respectively, with some relationship referencing `merge`): afterwards the
entity map has no `merge` key; the kept entity's occurrence list is the
concatenation of both lists (length 5); its aliases contain the absorbed
entity's display name; and the relationship list is the old list with every
`merge` reference rewritten to `keep` (then key-deduplicated), so no stored
relationship references `merge` any more. -/
theorem applyIntegration_merge_semantics
    (graph : KnowledgeGraph) (integration : IntegrationResult)
    (keep mg reason : String) (e1 e2 : Entity)
    (hint : integration =
      { merges := [{ keep := keep, merge := mg, reason := reason }]
        newRelationships := []
        updatedSignificance := []
        descriptionUpdates := [] })
    (hK : jmGet graph.entities keep = some e1)
    (hM : jmGet graph.entities mg = some e2)
    (hlen1 : e1.occurrences.length = 3)
    (hlen2 : e2.occurrences.length = 2)
    (hrel : ∃ r ∈ graph.relationships, r.sourceId = mg) :
    jmGet (applyIntegration graph integration).entities mg = none ∧
    (∃ e', jmGet (applyIntegration graph integration).entities keep = some e' ∧
      e'.occurrences = e1.occurrences ++ e2.occurrences ∧
      e'.occurrences.length = 5 ∧
      e2.name ∈ e'.aliases) ∧
    (applyIntegration graph integration).relationships =
      dedupRels (graph.relationships.map (rewriteRelIds mg keep)) ∧
    (∀ r ∈ (applyIntegration graph integration).relationships,
      r.sourceId ≠ mg ∧ r.targetId ≠ mg) := by
  have hne : keep ≠ mg := by
    intro h
    have he : e2 = e1 := by
      have h' := hK
      rw [h, hM] at h'
      exact Option.some.inj h'
    rw [he, hlen1] at hlen2
    omega
  have hlen : (mergedEntityValue e1 e2).occurrences.length = 5 := by
    rw [mergedEntityValue]
    simp [hlen1, hlen2]
  have hstep := applyMergeInstruction_entities_rels graph.entities graph.concepts
    graph.relationships keep mg reason e1 e2 hK hM hne
  have hent : (applyIntegration graph integration).entities =
      jmDelete (jmSet graph.entities keep
        (if 5 ≤ (mergedEntityValue e1 e2).occurrences.length then
          { mergedEntityValue e1 e2 with significance := Significance.major }
         else mergedEntityValue e1 e2)) mg := by
    rw [hint, applyIntegration]
    simp only [List.foldl]
    exact hstep.1
  have hrels : (applyIntegration graph integration).relationships =
      dedupRels (graph.relationships.map (rewriteRelIds mg keep)) := by
    rw [hint, applyIntegration]
    simp only [List.foldl]
    rw [hstep.2]
  refine ⟨?_, ?_, hrels, ?_⟩
  · rw [hent]
    exact jmGet_jmDelete_self _ mg
  · refine ⟨(if 5 ≤ (mergedEntityValue e1 e2).occurrences.length then
        { mergedEntityValue e1 e2 with significance := Significance.major }
       else mergedEntityValue e1 e2), ?_, ?_, ?_, ?_⟩
    · rw [hent, jmGet_jmDelete_ne _ mg keep hne, jmGet_jmSet_self]
    · rw [if_pos (le_of_eq hlen.symm)]
      rfl
    · rw [if_pos (le_of_eq hlen.symm)]
      exact hlen
    · rw [if_pos (le_of_eq hlen.symm)]
      show e2.name ∈ (mergedEntityValue e1 e2).aliases
      rw [mergedEntityValue]
      exact mem_mergeArrays (by simp)
  · rw [hrels]
    exact dedupRels_mem (fun r ev hr => hr)
      (fun r hr => by
        rcases List.mem_map.mp hr with ⟨r0, _, hmap⟩
        rw [← hmap]
        exact rewriteRelIds_ne_mg hne r0)

/-- A bare occurrence used to build concrete graphs. -/
def sampleOccurrence (t : String) : Occurrence :=
  { postTitle := t, postDate := "", context := "", significance := "" }

def sampleGrimesEntity : Entity :=
  { id := "grimes", name := "Grimes", type := EntityType.person
    description := "musician", aliases := []
    occurrences := [sampleOccurrence "a", sampleOccurrence "b", sampleOccurrence "c"]
    relatedEntities := [], relatedConcepts := []
    firstSeen := "a", significance := Significance.moderate }

def sampleClaireEntity : Entity :=
  { id := "claire-boucher", name := "Claire Boucher", type := EntityType.person
    description := "artist", aliases := ["CB"]
    occurrences := [sampleOccurrence "d", sampleOccurrence "e"]
    relatedEntities := [], relatedConcepts := []
    firstSeen := "d", significance := Significance.moderate }

def sampleCitesRel : Relationship :=
  { id := "claire-boucher-cites-baudrillard", sourceId := "claire-boucher"
    targetId := "baudrillard", type := "cites", description := ""
    evidence := ["d"] }

def sampleMergeGraph : KnowledgeGraph :=
  { entities := [("grimes", sampleGrimesEntity), ("claire-boucher", sampleClaireEntity)]
    concepts := []
    relationships := [sampleCitesRel]
    metadata :=
      { totalPostsProcessed := 5, dateRangeEarliest := "", dateRangeLatest := ""
        lastUpdated := "", authorName := none } }

def sampleMergeIntegration : IntegrationResult :=
  { merges := [{ keep := "grimes", merge := "claire-boucher", reason := "same person" }]
    newRelationships := [], updatedSignificance := [], descriptionUpdates := [] }

/-- Witness for `applyIntegration_merge_semantics` at the spec's
grimes/claire-boucher scenario. -/
theorem applyIntegration_merge_semantics_witness :
    jmGet (applyIntegration sampleMergeGraph sampleMergeIntegration).entities
        "claire-boucher" = none ∧
    (∃ e', jmGet (applyIntegration sampleMergeGraph sampleMergeIntegration).entities
          "grimes" = some e' ∧
      e'.occurrences = sampleGrimesEntity.occurrences ++ sampleClaireEntity.occurrences ∧
      e'.occurrences.length = 5 ∧
      sampleClaireEntity.name ∈ e'.aliases) ∧
    (applyIntegration sampleMergeGraph sampleMergeIntegration).relationships =
      dedupRels (sampleMergeGraph.relationships.map
        (rewriteRelIds "claire-boucher" "grimes")) ∧
    (∀ r ∈ (applyIntegration sampleMergeGraph sampleMergeIntegration).relationships,
      r.sourceId ≠ "claire-boucher" ∧ r.targetId ≠ "claire-boucher") :=
  applyIntegration_merge_semantics sampleMergeGraph sampleMergeIntegration
    "grimes" "claire-boucher" "same person" sampleGrimesEntity sampleClaireEntity
    rfl (by decide) (by decide) (by decide) (by decide)
    ⟨sampleCitesRel, by decide, by decide⟩

/-! ## Processing state and checkpoint persistence (src/graphManager.ts) -/

inductive ProcStatus where
  | idle | extracting | processing | paused | complete | error
deriving Repr, DecidableEq

structure ProcessingState where
  status : ProcStatus
  currentPostIndex : Nat
  totalPosts : Nat
  currentPostTitle : String
  graph : KnowledgeGraph
  posts : List Post
  errors : List (String × String)
  startTime : Nat
  pausedAt : Option Nat
deriving Repr, DecidableEq

/-- `createProcessingState(posts)`, with `Date.now()` passed as
`startTime` and `new Date().toISOString()` as `now`. -/
def createProcessingState (posts : List Post) (startTime : Nat) (now : String) :
    ProcessingState :=
  { status := ProcStatus.idle
    currentPostIndex := 0
    totalPosts := posts.length
    currentPostTitle := ""
    graph := createEmptyGraph now
    posts := posts
    errors := []
    startTime := startTime
    pausedAt := none }

/-- The graph as serialized into localStorage: the two `Map`s become plain
key-value objects (`Object.fromEntries`), the rest is stored as-is. -/
structure SerializedGraph where
  entities : List (String × Entity)
  concepts : List (String × KGConcept)
  relationships : List Relationship
  metadata : GraphMetadata
deriving Repr, DecidableEq

/-- The value `JSON.stringify` receives in `saveStateToStorage` (and
`JSON.parse` reproduces in `loadStateFromStorage`); JSON round-tripping of
the primitive fields is the identity and is not modelled further. -/
structure SerializedState where
  status : ProcStatus
  currentPostIndex : Nat
  totalPosts : Nat
  currentPostTitle : String
  graph : SerializedGraph
  posts : List Post
  errors : List (String × String)
  startTime : Nat
  pausedAt : Option Nat
deriving Repr, DecidableEq

/-- One `obj[k] = v` step of building a JS object from pairs: overwrite in
place if the key exists, else append. -/
def jsObjectAssign {α : Type} (l : List (String × α)) (k : String) (v : α) :
    List (String × α) :=
  if l.any (fun kv => kv.1 = k) then
    l.map (fun kv => if kv.1 = k then (k, v) else kv)
  else l ++ [(k, v)]

/-- `Object.fromEntries(pairs)`: JS object key semantics (string keys in
first-insertion order, later values overwrite). -/
def jsObjectFromPairs {α : Type} (pairs : List (String × α)) :
    List (String × α) :=
  pairs.foldl (fun acc kv => jsObjectAssign acc kv.1 kv.2) []

/-- `new Map(pairs)`: the Map constructor calls `set` per pair. -/
def jsMapFromPairs {α : Type} (pairs : List (String × α)) : JsMap α :=
  pairs.foldl (fun m kv => jmSet m kv.1 kv.2) []

/-- `saveStateToStorage(state)`: the value written under the storage key.
The `try`/`catch` around the storage write only logs on failure and is not
part of the value. -/
def saveStateToStorage (state : ProcessingState) : SerializedState :=
  { status := state.status
    currentPostIndex := state.currentPostIndex
    totalPosts := state.totalPosts
    currentPostTitle := state.currentPostTitle
    graph :=
      { entities := jsObjectFromPairs state.graph.entities
        concepts := jsObjectFromPairs state.graph.concepts
        relationships := state.graph.relationships
        metadata := state.graph.metadata }
    posts := state.posts
    errors := state.errors
    startTime := state.startTime
    pausedAt := state.pausedAt }

/-- `loadStateFromStorage()` on a present, parseable checkpoint: rebuild the
two `Map`s with `new Map(Object.entries(...))` and spread the rest.  (An
absent or corrupt checkpoint returns `null` in the source — the claim
concerns the round-trip of a state saved by `saveStateToStorage`, whose
fields are always present, so the `|| {}` / `|| []` fallbacks never fire.) -/
def loadStateFromStorage (saved : SerializedState) : ProcessingState :=
  { status := saved.status
    currentPostIndex := saved.currentPostIndex
    totalPosts := saved.totalPosts
    currentPostTitle := saved.currentPostTitle
    graph :=
      { entities := jsMapFromPairs saved.graph.entities
        concepts := jsMapFromPairs saved.graph.concepts
        relationships := saved.graph.relationships
        metadata := saved.graph.metadata }
    posts := saved.posts
    errors := saved.errors
    startTime := saved.startTime
    pausedAt := saved.pausedAt }

theorem jsObjectAssign_of_not_mem {α : Type} (l : List (String × α))
    (k : String) (v : α) (h : ∀ kv ∈ l, kv.1 ≠ k) :
    jsObjectAssign l k v = l ++ [(k, v)] := by
  have hfalse : l.any (fun kv => kv.1 = k) = false := by
    rw [List.any_eq_false]
    intro kv hkv
    simpa using h kv hkv
  rw [jsObjectAssign]
  simp [hfalse]

theorem jmSet_of_not_mem {α : Type} :
    ∀ (m : JsMap α) (k : String) (v : α), (∀ kv ∈ m, kv.1 ≠ k) →
      jmSet m k v = m ++ [(k, v)]
  | [], _, _, _ => rfl
  | kv :: rest, k, v, h => by
    rw [jmSet, if_neg (h kv (List.mem_cons_self _ _)),
      jmSet_of_not_mem rest k v (fun kv' hkv' => h kv' (List.mem_cons_of_mem _ hkv'))]
    rfl

theorem foldl_jsObjectAssign_append {α : Type} :
    ∀ (l acc : List (String × α)), (l.map Prod.fst).Nodup →
      (∀ kv ∈ acc, ∀ kv' ∈ l, kv.1 ≠ kv'.1) →
      l.foldl (fun acc kv => jsObjectAssign acc kv.1 kv.2) acc = acc ++ l
  | [], acc, _, _ => by simp
  | kv :: rest, acc, hnd, hdisj => by
    have hnd' : (rest.map Prod.fst).Nodup := by
      rw [List.map_cons, List.nodup_cons] at hnd
      exact hnd.2
    have hhead : kv.1 ∉ rest.map Prod.fst := by
      rw [List.map_cons, List.nodup_cons] at hnd
      exact hnd.1
    have hdisj' : ∀ kv' ∈ acc ++ [kv], ∀ kv'' ∈ rest, kv'.1 ≠ kv''.1 := by
      intro kv' hkv' kv'' hkv''
      rcases List.mem_append.mp hkv' with h | h
      · exact hdisj kv' h kv'' (List.mem_cons_of_mem _ hkv'')
      · rw [List.mem_singleton.mp h]
        intro heq
        exact hhead (by
          rw [heq]
          exact List.mem_map.mpr ⟨kv'', hkv'', rfl⟩)
    have hassign : jsObjectAssign acc kv.1 kv.2 = acc ++ [kv] := by
      simpa using jsObjectAssign_of_not_mem acc kv.1 kv.2
        (fun kv' hkv' => hdisj kv' hkv' kv (List.mem_cons_self _ _))
    rw [List.foldl_cons, hassign,
      foldl_jsObjectAssign_append rest (acc ++ [kv]) hnd' hdisj']
    simp

theorem foldl_jmSet_append {α : Type} :
    ∀ (l acc : List (String × α)), (l.map Prod.fst).Nodup →
      (∀ kv ∈ acc, ∀ kv' ∈ l, kv.1 ≠ kv'.1) →
      l.foldl (fun m kv => jmSet m kv.1 kv.2) acc = acc ++ l
  | [], acc, _, _ => by simp
  | kv :: rest, acc, hnd, hdisj => by
    have hnd' : (rest.map Prod.fst).Nodup := by
      rw [List.map_cons, List.nodup_cons] at hnd
      exact hnd.2
    have hhead : kv.1 ∉ rest.map Prod.fst := by
      rw [List.map_cons, List.nodup_cons] at hnd
      exact hnd.1
    have hdisj' : ∀ kv' ∈ acc ++ [kv], ∀ kv'' ∈ rest, kv'.1 ≠ kv''.1 := by
      intro kv' hkv' kv'' hkv''
      rcases List.mem_append.mp hkv' with h | h
      · exact hdisj kv' h kv'' (List.mem_cons_of_mem _ hkv'')
      · rw [List.mem_singleton.mp h]
        intro heq
        exact hhead (by
          rw [heq]
          exact List.mem_map.mpr ⟨kv'', hkv'', rfl⟩)
    have hassign : jmSet acc kv.1 kv.2 = acc ++ [kv] := by
      simpa using jmSet_of_not_mem acc kv.1 kv.2
        (fun kv' hkv' => hdisj kv' hkv' kv (List.mem_cons_self _ _))
    rw [List.foldl_cons, hassign,
      foldl_jmSet_append rest (acc ++ [kv]) hnd' hdisj']
    simp

theorem jsObjectFromPairs_eq_self {α : Type} (l : List (String × α))
    (h : (l.map Prod.fst).Nodup) : jsObjectFromPairs l = l := by
  rw [jsObjectFromPairs, foldl_jsObjectAssign_append l [] h (by simp)]
  rfl

theorem jsMapFromPairs_eq_self {α : Type} (l : List (String × α))
    (h : (l.map Prod.fst).Nodup) : jsMapFromPairs l = l := by
  rw [jsMapFromPairs, foldl_jmSet_append l [] h (by simp)]
  rfl

/-- Claim C9: checkpoint round-trip.  Saving a processing state (the two
maps serialized as plain key-value objects) and loading it back
reconstructs an equal state: the maps are rebuilt with the same entries and
the relationship list, metadata and all scalar fields are preserved.  The
hypotheses say the maps have no duplicate keys — automatic for any map a JS
`Map` produced. -/
theorem loadState_saveState_roundtrip (state : ProcessingState)
    (hE : (state.graph.entities.map Prod.fst).Nodup)
    (hC : (state.graph.concepts.map Prod.fst).Nodup) :
    loadStateFromStorage (saveStateToStorage state) = state := by
  rw [loadStateFromStorage, saveStateToStorage]
  simp only
  have he : jsMapFromPairs (jsObjectFromPairs state.graph.entities) =
      state.graph.entities := by
    rw [jsObjectFromPairs_eq_self _ hE, jsMapFromPairs_eq_self _ hE]
  have hc : jsMapFromPairs (jsObjectFromPairs state.graph.concepts) =
      state.graph.concepts := by
    rw [jsObjectFromPairs_eq_self _ hC, jsMapFromPairs_eq_self _ hC]
  rw [he, hc]

/-- Witness for `loadState_saveState_roundtrip` at a concrete state. -/
theorem loadState_saveState_roundtrip_witness :
    loadStateFromStorage (saveStateToStorage
      { status := ProcStatus.processing
        currentPostIndex := 2
        totalPosts := 3
        currentPostTitle := "Doc2"
        graph := sampleMergeGraph
        posts := [samplePost1, samplePost2]
        errors := [("Doc1", "boom")]
        startTime := 17
        pausedAt := none }) =
      { status := ProcStatus.processing
        currentPostIndex := 2
        totalPosts := 3
        currentPostTitle := "Doc2"
        graph := sampleMergeGraph
        posts := [samplePost1, samplePost2]
        errors := [("Doc1", "boom")]
        startTime := 17
        pausedAt := none } :=
  loadState_saveState_roundtrip _ (by decide) (by decide)

/-! ## Processing pipeline (src/index.ts, `processQueue`) -/

/-- `INTEGRATION_INTERVAL = 10`. -/
def INTEGRATION_INTERVAL : Nat := 10

/-- `shouldRunIntegration(postIndex)`. -/
def shouldRunIntegration (postIndex : Nat) : Bool :=
  (postIndex + 1) % INTEGRATION_INTERVAL = 0

/-- `arr.slice(-n)`: the last `n` elements. -/
def lastN {α : Type} (l : List α) (n : Nat) : List α :=
  l.drop (l.length - n)

/-- Stand-in for `state.posts[state.currentPostIndex]` when the index is out
of range; unreachable while `totalPosts = posts.length`, which
`createProcessingState` establishes. -/
def dummyPost : Post :=
  { id := "", title := "", date := "", content := "", wordCount := 0,
    filename := "", links := [] }

/-- The pipeline's external collaborators and clocks: `extractFromPost` and
`runIntegrationVerification` indexed by post position (throw = `error`),
the `new Date().toISOString()` used by `applyExtraction`, and `Date.now()`
at a pause. -/
structure PipelineEnv where
  extract : Nat → KnowledgeGraph → Except String ExtractionResult
  integrate : KnowledgeGraph → List String → Except String IntegrationResult
  now : Nat → String
  pauseTime : Nat

/-- Result of a `processQueue` run: the final state, the localStorage
checkpoint slot, and whether the loop returned early through the
`isPaused` branch. -/
structure LoopResult where
  state : ProcessingState
  checkpoint : Option SerializedState
  pausedEarly : Bool
deriving Repr

/-- The `// Processing complete` epilogue: on a run not signalled to stop,
set status `complete` and discard the saved checkpoint
(`clearSavedState`). -/
def processLoopDone (shouldStop : Bool) (state : ProcessingState)
    (checkpoint : Option SerializedState) : LoopResult :=
  if shouldStop = false then
    ⟨{ state with status := ProcStatus.complete }, none, false⟩
  else ⟨state, checkpoint, false⟩

/-- The `while (state.currentPostIndex < state.totalPosts && !shouldStop)`
loop of `processQueue`, including the epilogue.  `isPaused` and
`shouldStop` are the cooperative flags, constant over the run; `fuel`
bounds the iterations and is unreachable as long as it is at least
`totalPosts - currentPostIndex`, because every iteration advances
`currentPostIndex` by exactly one. -/
def processLoop (env : PipelineEnv) (isPaused shouldStop : Bool) :
    Nat → ProcessingState → Option SerializedState → List String → LoopResult
  | 0, state, checkpoint, _ =>
    if state.currentPostIndex < state.totalPosts ∧ shouldStop = false then
      ⟨state, checkpoint, false⟩
    else processLoopDone shouldStop state checkpoint
  | fuel + 1, state, checkpoint, recentPosts =>
    if state.currentPostIndex < state.totalPosts ∧ shouldStop = false then
      if isPaused then
        let paused := { state with pausedAt := some env.pauseTime }
        ⟨paused, some (saveStateToStorage paused), true⟩
      else
        let post := state.posts.getD state.currentPostIndex dummyPost
        let state := { state with currentPostTitle := post.title }
        match env.extract state.currentPostIndex state.graph with
        | Except.error msg =>
          processLoop env isPaused shouldStop fuel
            { state with
                errors := state.errors ++ [(post.title, msg)]
                currentPostIndex := state.currentPostIndex + 1 }
            checkpoint recentPosts
        | Except.ok extraction =>
          let g1 := applyExtraction state.graph extraction post
            (env.now state.currentPostIndex)
          let recent1 := recentPosts ++ [post.title]
          if shouldRunIntegration state.currentPostIndex ∧ 10 ≤ recent1.length then
            match env.integrate g1 (lastN recent1 10) with
            | Except.error msg =>
              processLoop env isPaused shouldStop fuel
                { state with
                    graph := g1
                    errors := state.errors ++ [(post.title, msg)]
                    currentPostIndex := state.currentPostIndex + 1 }
                checkpoint recent1
            | Except.ok integration =>
              let state' := { state with
                graph := applyIntegration g1 integration
                currentPostIndex := state.currentPostIndex + 1 }
              let checkpoint' :=
                if state'.currentPostIndex % 5 = 0 then
                  some (saveStateToStorage state')
                else checkpoint
              processLoop env isPaused shouldStop fuel state' checkpoint' recent1
          else
            let state' := { state with
              graph := g1
              currentPostIndex := state.currentPostIndex + 1 }
            let checkpoint' :=
              if state'.currentPostIndex % 5 = 0 then
                some (saveStateToStorage state')
              else checkpoint
            processLoop env isPaused shouldStop fuel state' checkpoint' recent1
    else processLoopDone shouldStop state checkpoint

/-- `processQueue()` entered with the given state and storage contents. -/
def processQueue (env : PipelineEnv) (isPaused shouldStop : Bool)
    (state : ProcessingState) (checkpoint : Option SerializedState) :
    LoopResult :=
  processLoop env isPaused shouldStop
    (state.totalPosts - state.currentPostIndex) state checkpoint []

/-! ## Claim C7: per-document failures are recoverable; completion -/

/-- Claim C7: (a) if extracting document `i` fails, the loop records
`(title, message)` in `errors`, still advances `currentPostIndex` past `i`,
and continues as the same loop on the advanced state — one bad document
never halts the run; (b) when the index reaches the total without a stop
signal, the status becomes `complete` and the saved checkpoint is
discarded. -/
theorem processQueue_error_recovery_and_completion :
    (∀ (env : PipelineEnv) (fuel : Nat) (state : ProcessingState)
        (checkpoint : Option SerializedState) (recentPosts : List String)
        (msg : String),
      state.currentPostIndex < state.totalPosts →
      env.extract state.currentPostIndex state.graph = Except.error msg →
      processLoop env false false (fuel + 1) state checkpoint recentPosts =
        processLoop env false false fuel
          { state with
              currentPostTitle :=
                (state.posts.getD state.currentPostIndex dummyPost).title
              errors := state.errors ++
                [((state.posts.getD state.currentPostIndex dummyPost).title, msg)]
              currentPostIndex := state.currentPostIndex + 1 }
          checkpoint recentPosts) ∧
    (∀ (env : PipelineEnv) (fuel : Nat) (state : ProcessingState)
        (checkpoint : Option SerializedState) (recentPosts : List String),
      state.totalPosts ≤ state.currentPostIndex + fuel →
      (processLoop env false false fuel state checkpoint recentPosts).state.status =
          ProcStatus.complete ∧
        (processLoop env false false fuel state checkpoint recentPosts).checkpoint =
          none) := by
  constructor
  · intro env fuel state checkpoint recentPosts msg hlt hex
    rw [processLoop, if_pos ⟨hlt, rfl⟩, if_neg (by simp)]
    simp only [hex]
  · intro env fuel
    induction fuel with
    | zero =>
      intro state checkpoint recentPosts h
      have hnlt : ¬(state.currentPostIndex < state.totalPosts ∧ false = false) := by
        simp
        omega
      rw [processLoop, if_neg hnlt, processLoopDone, if_pos rfl]
      exact ⟨rfl, rfl⟩
    | succ fuel ih =>
      intro state checkpoint recentPosts h
      by_cases hlt : state.currentPostIndex < state.totalPosts
      · rw [processLoop, if_pos ⟨hlt, rfl⟩, if_neg (by simp)]
        dsimp only
        cases hex : env.extract state.currentPostIndex state.graph with
        | error msg =>
          exact ih _ _ _ (by dsimp only; omega)
        | ok extraction =>
          dsimp only
          split
          · split
            · exact ih _ _ _ (by dsimp only; omega)
            · exact ih _ _ _ (by dsimp only; omega)
          · exact ih _ _ _ (by dsimp only; omega)
      · rw [processLoop, if_neg (by simp [hlt]), processLoopDone, if_pos rfl]
        exact ⟨rfl, rfl⟩

/-- An environment whose extraction always fails. -/
def sampleFailingEnv : PipelineEnv :=
  { extract := fun _ _ => Except.error "boom"
    integrate := fun _ _ =>
      Except.ok { merges := [], newRelationships := [],
                  updatedSignificance := [], descriptionUpdates := [] }
    now := fun _ => "t"
    pauseTime := 0 }

/-- Witness for `processQueue_error_recovery_and_completion` at a concrete
one-document run whose extraction throws. -/
theorem processQueue_error_recovery_and_completion_witness :
    (processLoop sampleFailingEnv false false 1
        (createProcessingState [samplePost1] 0 "t0") none [] =
      processLoop sampleFailingEnv false false 0
        { createProcessingState [samplePost1] 0 "t0" with
            currentPostTitle := "Doc1"
            errors := [("Doc1", "boom")]
            currentPostIndex := 1 }
        none []) ∧
    (processLoop sampleFailingEnv false false 1
        (createProcessingState [samplePost1] 0 "t0") none []).state.status =
      ProcStatus.complete ∧
    (processLoop sampleFailingEnv false false 1
        (createProcessingState [samplePost1] 0 "t0") none []).checkpoint = none := by
  refine ⟨?_, ?_, ?_⟩
  · have h := processQueue_error_recovery_and_completion.1 sampleFailingEnv 0
      (createProcessingState [samplePost1] 0 "t0") none [] "boom"
      (by decide) rfl
    exact h
  · exact (processQueue_error_recovery_and_completion.2 sampleFailingEnv 1
      (createProcessingState [samplePost1] 0 "t0") none [] (by decide)).1
  · exact (processQueue_error_recovery_and_completion.2 sampleFailingEnv 1
      (createProcessingState [samplePost1] 0 "t0") none [] (by decide)).2

/-! ## Extraction client response parsing (src/anthropic.ts)

`parseExtractionResponse` strips a wrapping markdown code fence, runs
`JSON.parse` and validates field by field inside one `try`; any throw
(parse failure, or a TypeError while validating, e.g. `.map` on a truthy
non-array) is caught and yields the empty result.  `JSON.parse` itself is
an external builtin and is passed in as a parameter `jsonParse : String →
Option Json` (`none` = it threw). -/

/-- A parsed JSON value.  JSON numbers are modelled as integers; no claim
depends on fractional values. -/
inductive Json where
  | null
  | bool (b : Bool)
  | num (n : Int)
  | str (s : String)
  | arr (elems : List Json)
  | obj (fields : List (String × Json))

/-- JS truthiness of a JSON value. -/
def jsTruthy : Json → Bool
  | Json.null => false
  | Json.bool b => b
  | Json.num n => n ≠ 0
  | Json.str s => s ≠ ""
  | Json.arr _ => true
  | Json.obj _ => true

/-- Property access `v[k]`: throws on `null`, yields `undefined` (`none`)
on non-objects and missing keys. -/
def jsField : Json → String → Except Unit (Option Json)
  | Json.null, _ => Except.error ()
  | Json.obj fields, k => Except.ok ((fields.find? (fun kv => kv.1 = k)).map Prod.snd)
  | _, _ => Except.ok none

/-- JS string coercion, for storing `x || dflt` into a string-typed field.
(`String([..])` joins elements; only the empty-array case, which yields
`""`, is modelled exactly — no claim exercises non-string truthy values.) -/
def jsonAsString : Json → String
  | Json.str s => s
  | Json.num n => toString n
  | Json.bool b => if b then "true" else "false"
  | Json.null => "null"
  | Json.arr _ => ""
  | Json.obj _ => "[object Object]"

/-- `x || dflt` in a string position. -/
def jsOrString (v : Option Json) (dflt : String) : String :=
  match v with
  | none => dflt
  | some j => if jsTruthy j then jsonAsString j else dflt

/-- `x ?? dflt` in a boolean position (`e.isNew ?? true`). -/
def jsNullishBool (v : Option Json) (dflt : Bool) : Bool :=
  match v with
  | none => dflt
  | some Json.null => dflt
  | some j => jsTruthy j

/-- `Array.isArray(x) ? x : []` in a string-list position. -/
def jsStringArray (v : Option Json) : List String :=
  match v with
  | some (Json.arr xs) => xs.map jsonAsString
  | _ => []

def validTypes : List String :=
  ["person", "organization", "place", "work", "event", "other"]

def strToEntityType (s : String) : EntityType :=
  if s = "person" then EntityType.person
  else if s = "organization" then EntityType.organization
  else if s = "place" then EntityType.place
  else if s = "work" then EntityType.work
  else if s = "event" then EntityType.event
  else EntityType.other

/-- `validateEntityType(type)`: `validTypes.includes(type || '') ? type :
'other'` — only a string occurring in `validTypes` passes through. -/
def validateEntityType (ty : Option Json) : EntityType :=
  match ty with
  | some (Json.str s) => if s ∈ validTypes then strToEntityType s else EntityType.other
  | _ => EntityType.other

def validSignificances : List String := ["major", "moderate", "minor"]

def strToSignificance (s : String) : Significance :=
  if s = "major" then Significance.major
  else if s = "minor" then Significance.minor
  else Significance.moderate

/-- `validateSignificance(sig)`. -/
def validateSignificance (sig : Option Json) : Significance :=
  match sig with
  | some (Json.str s) =>
    if s ∈ validSignificances then strToSignificance s else Significance.moderate
  | _ => Significance.moderate

/-- One element of the `parsed.entities` map callback; field reads in
source order, each a potential throw site (`e` may be `null`). -/
def validateEntityJson (e : Json) : Except Unit ExtractedEntity := do
  let nameF ← jsField e "name"
  let isNewF ← jsField e "isNew"
  let typeF ← jsField e "type"
  let descF ← jsField e "description"
  let aliasesF ← jsField e "aliases"
  let ctxF ← jsField e "contextInThisPost"
  let sigPostF ← jsField e "significanceInThisPost"
  let sigF ← jsField e "significance"
  pure
    { name := jsOrString nameF "Unknown"
      isNew := jsNullishBool isNewF true
      type := validateEntityType typeF
      description := jsOrString descF ""
      aliases := jsStringArray aliasesF
      contextInThisPost := jsOrString ctxF ""
      significanceInThisPost := jsOrString sigPostF ""
      significance := validateSignificance sigF }

/-- One element of the `parsed.concepts` map callback. -/
def validateConceptJson (c : Json) : Except Unit ExtractedConcept := do
  let nameF ← jsField c "name"
  let isNewF ← jsField c "isNew"
  let domainsF ← jsField c "domains"
  let descF ← jsField c "description"
  let altF ← jsField c "alternateTerms"
  let ctxF ← jsField c "contextInThisPost"
  let evoF ← jsField c "evolutionNote"
  pure
    { name := jsOrString nameF "Unknown"
      isNew := jsNullishBool isNewF true
      domains := jsStringArray domainsF
      description := jsOrString descF ""
      alternateTerms := jsStringArray altF
      contextInThisPost := jsOrString ctxF ""
      evolutionNote := jsOrString evoF "" }

/-- One element of the `parsed.relationships` map callback. -/
def validateRelationshipJson (r : Json) : Except Unit ExtractedRelationship := do
  let sourceF ← jsField r "source"
  let targetF ← jsField r "target"
  let typeF ← jsField r "type"
  let descF ← jsField r "description"
  let evF ← jsField r "evidenceQuote"
  pure
    { source := jsOrString sourceF ""
      target := jsOrString targetF ""
      type := jsOrString typeF "related"
      description := jsOrString descF ""
      evidenceQuote := jsOrString evF "" }

/-- `(field || []).map(f)`: a missing or falsy field maps over the empty
array; a truthy non-array has no `.map` and throws. -/
def jsArrayFieldMap {β : Type} (v : Option Json) (f : Json → Except Unit β) :
    Except Unit (List β) :=
  match v with
  | none => Except.ok []
  | some j =>
    if jsTruthy j then
      match j with
      | Json.arr xs => xs.mapM f
      | _ => Except.error ()
    else Except.ok []

/-- The validation stage of `parseExtractionResponse`, between `JSON.parse`
and the `catch`. -/
def validateExtractionJson (parsed : Json) : Except Unit ExtractionResult := do
  let entF ← jsField parsed "entities"
  let entities ← jsArrayFieldMap entF validateEntityJson
  let conF ← jsField parsed "concepts"
  let concepts ← jsArrayFieldMap conF validateConceptJson
  let relF ← jsField parsed "relationships"
  let rels ← jsArrayFieldMap relF validateRelationshipJson
  pure
    { entities := entities
      concepts := concepts
      relationships := rels.filter (fun r => r.source != "" && r.target != "") }

/-- `.trim()` on both ends (ASCII/Unicode whitespace as `Char.isWhitespace`
models it). -/
def jsTrimL (l : List Char) : List Char :=
  ((l.dropWhile Char.isWhitespace).reverse.dropWhile Char.isWhitespace).reverse

/-- `slice` helper: drop the last `n` characters. -/
def dropRightL {α : Type} (l : List α) (n : Nat) : List α :=
  l.take (l.length - n)

/-- Does the text start with a code fence? (`cleanText.startsWith('```')`.) -/
def startsWithFence : List Char → Bool
  | '`' :: '`' :: '`' :: _ => true
  | _ => false

/-- `.replace(/^```(?:json)?\n?/, '')` on a string known to start with
three backticks. -/
def stripLeadingFenceL (l : List Char) : List Char :=
  match l with
  | '`' :: '`' :: '`' :: rest =>
    let rest' :=
      match rest with
      | 'j' :: 's' :: 'o' :: 'n' :: r2 => r2
      | _ => rest
    match rest' with
    | '\n' :: r3 => r3
    | _ => rest'
  | _ => l

/-- `.replace(/\n?```$/, '')`. -/
def stripTrailingFenceL (l : List Char) : List Char :=
  if l.drop (l.length - 3) = ['`', '`', '`'] then
    let t := dropRightL l 3
    match t.getLast? with
    | some '\n' => dropRightL t 1
    | _ => t
  else l

/-- The fence-stripping prologue of `parseExtractionResponse`: trim, and if
the text starts with a code fence remove the opening and closing fence
markers. -/
def stripCodeFenceL (l : List Char) : List Char :=
  let cleanText := jsTrimL l
  if startsWithFence cleanText then
    stripTrailingFenceL (stripLeadingFenceL cleanText)
  else cleanText

def stripCodeFence (s : String) : String :=
  ⟨stripCodeFenceL s.data⟩

/-- The `return { entities: [], concepts: [], relationships: [] }` of the
`catch` branch. -/
def emptyExtractionResult : ExtractionResult :=
  { entities := [], concepts := [], relationships := [] }

/-- `parseExtractionResponse(text)`, with the `JSON.parse` builtin passed
in (`none` models a parse exception). -/
def parseExtractionResponse (jsonParse : String → Option Json)
    (text : String) : ExtractionResult :=
  let cleanText := stripCodeFence text
  match jsonParse cleanText with
  | none => emptyExtractionResult
  | some parsed =>
    match validateExtractionJson parsed with
    | Except.ok r => r
    | Except.error _ => emptyExtractionResult

/-! ## Claim C6: the extraction response parser -/

theorem dropWhile_ws_of_head {m : List Char}
    (hm : ∀ c ∈ m.head?, c.isWhitespace = false) :
    m.dropWhile Char.isWhitespace = m := by
  match m with
  | [] => rfl
  | c :: rest =>
    rw [List.dropWhile_cons, if_neg (by simp [hm c (by simp)])]

theorem jsTrimL_of_no_ws {l : List Char}
    (h1 : ∀ c ∈ l.head?, c.isWhitespace = false)
    (h2 : ∀ c ∈ l.getLast?, c.isWhitespace = false) :
    jsTrimL l = l := by
  rw [jsTrimL, dropWhile_ws_of_head h1,
    dropWhile_ws_of_head (by
      rw [List.head?_reverse]
      exact h2),
    List.reverse_reverse]

theorem stripTrailingFenceL_wrap (body : List Char) :
    stripTrailingFenceL (body ++ ['\n', '`', '`', '`']) = body := by
  have hsplit : body ++ ['\n', '`', '`', '`'] =
      (body ++ ['\n']) ++ ['`', '`', '`'] := by simp
  rw [stripTrailingFenceL, if_pos (by
    rw [hsplit]
    exact List.drop_left' (by simp))]
  have ht : dropRightL (body ++ ['\n', '`', '`', '`']) 3 = body ++ ['\n'] := by
    rw [dropRightL, hsplit]
    exact List.take_left' (by simp)
  rw [ht]
  simp only [List.getLast?_concat]
  show dropRightL (body ++ ['\n']) 1 = body
  rw [dropRightL]
  exact List.take_left' (by simp)

theorem stripCodeFenceL_wrap (body : List Char) :
    stripCodeFenceL
      (('`' :: '`' :: '`' :: 'j' :: 's' :: 'o' :: 'n' :: '\n' :: []) ++ body ++
        ('\n' :: '`' :: '`' :: '`' :: [])) = body := by
  have hform : ('`' :: '`' :: '`' :: 'j' :: 's' :: 'o' :: 'n' :: '\n' :: []) ++ body ++
      ('\n' :: '`' :: '`' :: '`' :: []) =
      '`' :: '`' :: '`' :: 'j' :: 's' :: 'o' :: 'n' :: '\n' ::
        (body ++ ['\n', '`', '`', '`']) := by
    simp
  rw [hform, stripCodeFenceL]
  have htrim : jsTrimL ('`' :: '`' :: '`' :: 'j' :: 's' :: 'o' :: 'n' :: '\n' ::
      (body ++ ['\n', '`', '`', '`'])) =
      '`' :: '`' :: '`' :: 'j' :: 's' :: 'o' :: 'n' :: '\n' ::
        (body ++ ['\n', '`', '`', '`']) := by
    apply jsTrimL_of_no_ws
    · intro c hc
      simp at hc
      subst hc
      decide
    · intro c hc
      have : ('`' :: '`' :: '`' :: 'j' :: 's' :: 'o' :: 'n' :: '\n' ::
          (body ++ ['\n', '`', '`', '`'])) =
          ('`' :: '`' :: '`' :: 'j' :: 's' :: 'o' :: 'n' :: '\n' ::
            (body ++ ['\n', '`', '`'])) ++ ['`'] := by
        simp
      rw [this, List.getLast?_concat] at hc
      simp at hc
      subst hc
      decide
  rw [htrim]
  have hstart : startsWithFence ('`' :: '`' :: '`' :: 'j' :: 's' :: 'o' :: 'n' :: '\n' ::
      (body ++ ['\n', '`', '`', '`'])) = true := rfl
  rw [if_pos hstart]
  have hlead : stripLeadingFenceL ('`' :: '`' :: '`' :: 'j' :: 's' :: 'o' :: 'n' :: '\n' ::
      (body ++ ['\n', '`', '`', '`'])) = body ++ ['\n', '`', '`', '`'] := rfl
  rw [hlead]
  exact stripTrailingFenceL_wrap body

theorem jsArrayFieldMap_none {β : Type} (f : Json → Except Unit β) :
    jsArrayFieldMap none f = Except.ok [] := rfl

/-- Claim C6: the extraction response parser is total ("never throws" — it
is a function into `ExtractionResult`): it strips a wrapping code fence
before parsing; a hard `JSON.parse` failure yields the empty result; an
unrecognized entity `type` becomes `other`; an unrecognized `significance`
becomes `moderate`; and a missing array field (top-level `entities`, or an
entity's `aliases`) becomes the empty array. -/
theorem parseExtractionResponse_spec :
    (∀ (jp : String → Option Json) (text : String),
      jp (stripCodeFence text) = none →
      parseExtractionResponse jp text = emptyExtractionResult) ∧
    (∀ body : String,
      stripCodeFence ("```json\n" ++ body ++ "\n```") = body) ∧
    (∀ s : String, s ∉ validTypes →
      validateEntityType (some (Json.str s)) = EntityType.other) ∧
    (∀ s : String, s ∉ validSignificances →
      validateSignificance (some (Json.str s)) = Significance.moderate) ∧
    (∀ (fields : List (String × Json)) (r : ExtractionResult),
      fields.find? (fun kv => kv.1 = "entities") = none →
      validateExtractionJson (Json.obj fields) = Except.ok r →
      r.entities = []) ∧
    (∀ (fields : List (String × Json)) (r : ExtractedEntity),
      fields.find? (fun kv => kv.1 = "aliases") = none →
      validateEntityJson (Json.obj fields) = Except.ok r →
      r.aliases = []) := by
  refine ⟨?_, ?_, ?_, ?_, ?_, ?_⟩
  · intro jp text h
    rw [parseExtractionResponse]
    simp only [h]
  · intro body
    show (⟨stripCodeFenceL ("```json\n" ++ body ++ "\n```").data⟩ : String) = body
    have hdata : ("```json\n" ++ body ++ "\n```").data =
        ('`' :: '`' :: '`' :: 'j' :: 's' :: 'o' :: 'n' :: '\n' :: []) ++ body.data ++
          ('\n' :: '`' :: '`' :: '`' :: []) := by
      rw [String.data_append, String.data_append]
    rw [hdata, stripCodeFenceL_wrap body.data]
  · intro s hs
    rw [validateEntityType]
    simp only [if_neg hs]
  · intro s hs
    rw [validateSignificance]
    simp only [if_neg hs]
  · intro fields r hf hok
    rw [validateExtractionJson] at hok
    simp only [jsField, hf, Option.map_none', bind, Except.bind,
      jsArrayFieldMap_none] at hok
    cases hc : jsArrayFieldMap
        ((fields.find? (fun kv => kv.1 = "concepts")).map Prod.snd)
        validateConceptJson with
    | error e =>
      rw [hc] at hok
      simp at hok
    | ok concepts =>
      rw [hc] at hok
      cases hr : jsArrayFieldMap
          ((fields.find? (fun kv => kv.1 = "relationships")).map Prod.snd)
          validateRelationshipJson with
      | error e =>
        rw [hr] at hok
        simp at hok
      | ok rels =>
        rw [hr] at hok
        simp only [pure, Except.pure, Except.ok.injEq] at hok
        rw [← hok]
  · intro fields r hf hok
    rw [validateEntityJson] at hok
    simp only [jsField, hf, Option.map_none', bind, Except.bind, pure, Except.pure,
      Except.ok.injEq] at hok
    rw [← hok]
    rfl

/-- Witness for `parseExtractionResponse_spec` at concrete inputs (the
missing-array hypotheses are discharged by evaluation). -/
theorem parseExtractionResponse_spec_witness :
    parseExtractionResponse (fun _ => none) "not json at all" =
        emptyExtractionResult ∧
    stripCodeFence ("```json\n" ++ "x" ++ "\n```") = "x" ∧
    validateEntityType (some (Json.str "alien")) = EntityType.other ∧
    validateSignificance (some (Json.str "huge")) = Significance.moderate ∧
    emptyExtractionResult.entities = ([] : List ExtractedEntity) ∧
    ({ name := "X", isNew := true, type := EntityType.other,
       description := "", aliases := [], contextInThisPost := "",
       significanceInThisPost := "",
       significance := Significance.moderate } : ExtractedEntity).aliases = [] :=
  ⟨parseExtractionResponse_spec.1 (fun _ => none) "not json at all" rfl,
   parseExtractionResponse_spec.2.1 "x",
   parseExtractionResponse_spec.2.2.1 "alien" (by decide),
   parseExtractionResponse_spec.2.2.2.1 "huge" (by decide),
   parseExtractionResponse_spec.2.2.2.2.1
     [("concepts", Json.arr [])] emptyExtractionResult rfl rfl,
   parseExtractionResponse_spec.2.2.2.2.2
     [("name", Json.str "X")] _ rfl rfl⟩
